import Mathlib

/-!
Verification development for the docuvision document-ingestion pipeline
(ckanext-docuvision).  The Python sources are embedded shallowly: pure
string manipulation is translated to Lean functions; calls into external
libraries (PyPDF2, pytesseract, openpyxl, xlrd, textract, requests, the
CKAN toolkit) are modelled as oracle data supplied in environment
records; Python exceptions are modelled with an explicit `PyExc` type and
`Except` control flow, including the Python 3 rule that an
`except ... as e` binding is deleted at the end of its handler block.
-/

namespace Docuvision

/-- Model of a Python exception value.  `lib` is a raw exception raised by
a third-party library or the interpreter (unstructured from the point of
view of this code base); `exc` is an `Exception(msg)` constructed by the
docuvision code itself; `validationError` and `objectNotFound` are the
CKAN toolkit's structured error types; `timeout` is `requests.Timeout`;
`unboundLocal` models the interpreter error raised when a name deleted at
the end of an `except` block is referenced again. -/
inductive PyExc where
  | timeout
  | validationError (msg : String)
  | objectNotFound (msg : String)
  | exc (msg : String)
  | lib (name : String) (msg : String)
  | unboundLocal (var : String)
deriving DecidableEq, Repr

/-- Result of Python `str(e)` on an exception, as used by the f-strings in
the source.  For `unboundLocal` the interpreter message cites only the
variable name; it contains nothing of any earlier exception. -/
def PyExc.message : PyExc → String
  | .timeout => "requests.Timeout"
  | .validationError m => m
  | .objectNotFound m => m
  | .exc m => m
  | .lib _ m => m
  | .unboundLocal v => "local variable " ++ v ++ " referenced before assignment"

/-- Substring test (`needle in haystack` for Python strings), written as a
direct scan over character lists. -/
def strContainsAux : List Char → List Char → Bool
  | [], pat => pat.isEmpty
  | c :: rest, pat =>
      if (c :: rest).take pat.length = pat then true else strContainsAux rest pat

def strContains (s pat : String) : Bool :=
  strContainsAux s.toList pat.toList

/-- Python `s.lower()`, character by character. -/
def pyLower (s : String) : String := String.mk (s.toList.map Char.toLower)

/-- Python `s.strip()`: drop whitespace from both ends. -/
def pyStrip (s : String) : String :=
  String.mk
    (((s.toList.dropWhile Char.isWhitespace).reverse.dropWhile
        Char.isWhitespace).reverse)

/-! ## Format Resolver (processing.py, `process_resource` lines 24-62) -/

/-- The `format_map` dictionary from `process_resource` (identical in
`plugin.DocuvisionPlugin._process_resource`), in source order. -/
def format_map : List (String × String) :=
  [("pdf", "pdf"), ("doc", "doc"), ("docx", "docx"), ("xls", "xls"),
   ("xlsx", "xlsx"), ("jpeg", "jpeg"), ("jpg", "jpeg"), ("png", "png"),
   ("tiff", "tiff"), ("tif", "tiff"), ("bmp", "bmp"), ("gif", "gif"),
   ("json", "json")]

/-- Python `format_map.get(s, s)`. -/
def fmtLookup (s : String) : String :=
  match format_map.find? (fun p => p.1 = s) with
  | some p => p.2
  | none => s

/-- Python `s in format_map` (key membership). -/
def isKnownExt (s : String) : Bool :=
  (format_map.find? (fun p => p.1 = s)).isSome

/-- Python `format_map.values()` as a list. -/
def knownTags : List String := format_map.map (fun p => p.2)

/-- Index of the last occurrence of a character in a list, if any. -/
def lastIdx (cs : List Char) (c : Char) : Option Nat :=
  cs.enum.foldl (fun acc p => if p.2 = c then some p.1 else acc) none

/-- Model of posix `os.path.splitext`: split at the last dot of the last
path component, except that leading dots of the component never start an
extension (`.bashrc` has none). -/
def splitext (p : String) : String × String :=
  let cs := p.toList
  match lastIdx cs '.' with
  | none => (p, "")
  | some d =>
      let s := match lastIdx cs '/' with
        | some i => i + 1
        | none => 0
      if s ≤ d ∧ (List.range (d - s)).any (fun k => cs.getD (s + k) ' ' ≠ '.') then
        (String.mk (cs.take d), String.mk (cs.drop d))
      else (p, "")

/-- Python `s.lstrip(".")`. -/
def lstripDot (s : String) : String :=
  String.mk (s.toList.dropWhile (fun c => c = '.'))

/-- The extension used for format inference: the `splitext` extension,
lower-cased, with the leading dot stripped (`ext.lower().lstrip(".")`). -/
def extOf (url : String) : String :=
  lstripDot (pyLower (splitext url).2)

/-- Format resolution from `process_resource` lines 44-62: normalise the
declared format through `format_map` (`fmt`), infer a format from the
extension of the url-or-name (`ext_fmt`), and let the extension win when
it maps to a known tag different from the declared one
(`if ext_fmt != fmt and ext_fmt in format_map.values(): fmt = ext_fmt`). -/
def resolve (declared urlOrName : String) : String :=
  if fmtLookup (extOf urlOrName) ≠ fmtLookup (pyStrip (pyLower declared))
      ∧ knownTags.contains (fmtLookup (extOf urlOrName)) then
    fmtLookup (extOf urlOrName)
  else fmtLookup (pyStrip (pyLower declared))

theorem values_are_keys (s : String) (h : knownTags.contains s = true) :
    isKnownExt s = true := by
  have hm : s ∈ knownTags := by simpa using h
  simp [knownTags, format_map] at hm
  rcases hm with h|h|h|h|h|h|h|h|h|h|h <;> subst h <;> decide

theorem fmtLookup_of_not_key (s : String) (h : isKnownExt s = false) :
    fmtLookup s = s := by
  unfold fmtLookup
  cases hf : format_map.find? (fun p => p.1 = s) with
  | none => rfl
  | some p =>
      unfold isKnownExt at h
      rw [hf] at h
      simp at h

/-- Claim C1: if the extension extracted from the source name or URL maps
to a known canonical tag that differs from the declared-derived tag,
`resolve` returns the extension-derived tag; if the source name or URL
has no extension or an unknown one, `resolve` returns the declared-derived
tag unchanged. -/
theorem c1_format_resolution (d u : String) :
    (knownTags.contains (fmtLookup (extOf u)) = true →
        fmtLookup (extOf u) ≠ fmtLookup (pyStrip (pyLower d)) →
        resolve d u = fmtLookup (extOf u)) ∧
    ((extOf u = "" ∨ isKnownExt (extOf u) = false) →
        resolve d u = fmtLookup (pyStrip (pyLower d))) := by
  constructor
  · intro hk hne
    unfold resolve
    split_ifs with h
    · rfl
    · exact absurd ⟨hne, by simpa using hk⟩ h
  · intro h
    have hnk : isKnownExt (extOf u) = false := by
      rcases h with h | h
      · rw [h]; decide
      · exact h
    have heq : fmtLookup (extOf u) = extOf u := fmtLookup_of_not_key _ hnk
    unfold resolve
    split_ifs with hcond
    · exfalso
      have hv : isKnownExt (fmtLookup (extOf u)) = true :=
        values_are_keys _ (by simpa using hcond.2)
      rw [heq] at hv
      rw [hv] at hnk
      exact Bool.noConfusion hnk
    · rfl

theorem c1_format_resolution_witness :
    resolve "data" "report.pdf" = "pdf" ∧ resolve "pdf" "report" = "pdf" := by
  constructor
  · have h := (c1_format_resolution "data" "report.pdf").1 (by decide) (by decide)
    have h2 : fmtLookup (extOf "report.pdf") = "pdf" := by decide
    exact h2 ▸ h
  · have h := (c1_format_resolution "pdf" "report").2 (Or.inl (by decide))
    have h2 : fmtLookup (pyStrip (pyLower "pdf")) = "pdf" := by decide
    exact h2 ▸ h

/-! ## Extraction strategy chains (extractors.py; mirrored as methods in
plugin.py).  The library calls are oracles: each environment record states
what the corresponding library call would return or raise for the file at
hand. -/

/-- Oracle for a PDF file: what `PyPDF2.PdfReader` plus the per-page
`page.extract_text()` loop yields (an exception anywhere in that block is
a single `error`; a page returning `None` is `none`), and what the
`pdf2image`+`pytesseract` flow of `extract_text_tesseract` yields (an
exception anywhere in it is `error`). -/
structure PdfData where
  readResult : Except PyExc (List (Option String))
  ocr : Except PyExc (List String)

/-- Which strategy of the pdf chain produced the returned text. -/
inductive PdfStrategy where
  | textLayer
  | ocrFallback
deriving DecidableEq, Repr

/-- Text produced by the direct text-layer loop:
`text += (page.extract_text() or "") + "\n"` over all pages. -/
def pdfDirectText (pages : List (Option String)) : String :=
  pages.foldl (fun acc p => acc ++ p.getD "" ++ "\n") ""

/-- `extract_text_tesseract` (extractors.py lines 31-52): render pages to
images, OCR each, join with newlines; any exception is caught and yields
the empty string. -/
def extract_text_tesseract (d : PdfData) : String :=
  match d.ocr with
  | .ok pageTexts => String.intercalate "\n" pageTexts
  | .error _ => ""

/-- `extract_text_pdf` (extractors.py lines 15-29): read the embedded text
layer; if the resulting text has fewer than 5 characters, replace it by
the OCR fallback result.  Exceptions from the reader are logged and
re-raised.  The second component records which strategy produced the
text. -/
def extract_text_pdf (d : PdfData) : Except PyExc (String × PdfStrategy) :=
  match d.readResult with
  | .error e => .error e
  | .ok pages =>
      let text := pdfDirectText pages
      if text.length < 5 then .ok (extract_text_tesseract d, .ocrFallback)
      else .ok (text, .textLayer)

/-- Claim C2: for every PDF whose embedded text layer yields fewer than 5
characters, the extraction outcome is produced by the OCR fallback
strategy, not by the direct text-layer extractor. -/
theorem c2_pdf_quality_gate (d : PdfData) (pages : List (Option String))
    (hread : d.readResult = .ok pages) (hshort : (pdfDirectText pages).length < 5) :
    extract_text_pdf d = .ok (extract_text_tesseract d, .ocrFallback) ∧
    ∀ t, extract_text_pdf d ≠ .ok (t, .textLayer) := by
  have hmain : extract_text_pdf d = .ok (extract_text_tesseract d, .ocrFallback) := by
    unfold extract_text_pdf
    rw [hread]
    simp [hshort]
  refine ⟨hmain, ?_⟩
  intro t hcontra
  rw [hmain] at hcontra
  simp at hcontra

theorem c2_pdf_quality_gate_witness :
    extract_text_pdf ⟨.ok [some "hi", none], .ok ["ocr text"]⟩ =
      .ok ("ocr text", .ocrFallback) := by
  have h := (c2_pdf_quality_gate ⟨.ok [some "hi", none], .ok ["ocr text"]⟩
      [some "hi", none] rfl (by decide)).1
  exact h

/-- Oracle for a legacy `.doc` file: the outcome of `import textract`, of
`textract.process(filepath)` plus utf-8 decoding, and of the
`subprocess.check_output(["antiword", filepath])` call plus decoding. -/
structure DocData where
  importOk : Except PyExc Unit
  textract : Except PyExc String
  antiword : Except PyExc String

/-- `extract_text_doc` (extractors.py lines 63-92): try textract, then
antiword; if both fail, raise a composite `Exception` whose message embeds
both underlying messages.  The outer handler logs and re-raises
unchanged.  An `import textract` failure is re-raised by the outer
handler without trying antiword. -/
def extract_text_doc (d : DocData) : Except PyExc String :=
  match d.importOk with
  | .error e => .error e
  | .ok _ =>
      match d.textract with
      | .ok t => .ok t
      | .error textract_err =>
          match d.antiword with
          | .ok t => .ok t
          | .error antiword_err =>
              .error (.exc ("Failed to extract DOC text: textract error: "
                ++ textract_err.message ++ ", antiword error: "
                ++ antiword_err.message))

/-- Oracle for a spreadsheet file: filesystem facts plus what
`openpyxl.load_workbook` + the row loop and `xlrd.open_workbook` + the
row loop yield.  A cell is `none` when the library reports Python `None`,
otherwise `some` of its `str()` rendering.  Sheets are lists of rows. -/
structure XlsxData where
  fileIsFile : Bool
  fileSize : Nat
  openpyxl : Except PyExc (List (List (List (Option String))))
  xlrdImport : Except PyExc Unit
  xlrd : Except PyExc (List (List (List (Option String))))

/-- One row rendered as in the source:
`"\t".join([str(cell) if cell is not None else "" for cell in row]) + "\n"`. -/
def xlsxRowText (row : List (Option String)) : String :=
  String.intercalate "\t" (row.map (fun c => c.getD "")) ++ "\n"

/-- All sheets concatenated row by row. -/
def sheetsText (sheets : List (List (List (Option String)))) : String :=
  sheets.foldl (fun acc ws => ws.foldl (fun a r => a ++ xlsxRowText r) acc) ""

/-- `extract_text_xlsx` (extractors.py lines 94-143).  The first `try`
block checks existence and size and runs openpyxl; its handler
`except Exception as e` only logs, and Python deletes the binding `e` at
the end of that handler.  The second block runs xlrd; when it also fails,
the composite `raise Exception(f"... openpyxl error: {e}, xlrd error:
{e2}")` evaluates the deleted name `e`, so the interpreter raises
`UnboundLocalError` instead of the composite exception. -/
def extract_text_xlsx (filepath : String) (d : XlsxData) : Except PyExc String :=
  let firstTry : Except PyExc String :=
    if d.fileIsFile = false then .error (.exc ("File does not exist: " ++ filepath))
    else if d.fileSize = 0 then .error (.exc ("File is empty: " ++ filepath))
    else match d.openpyxl with
      | .error e => .error e
      | .ok sheets => .ok (sheetsText sheets)
  match firstTry with
  | .ok t => .ok t
  | .error _openpyxlErr =>
      let secondTry : Except PyExc String :=
        match d.xlrdImport with
        | .error e => .error e
        | .ok _ =>
            match d.xlrd with
            | .error e => .error e
            | .ok sheets => .ok (sheetsText sheets)
      match secondTry with
      | .ok t => .ok t
      | .error _xlrdErr => .error (.unboundLocal "e")

/-- Oracle for an image file: filesystem facts plus the outcome of
`Image.open` and `pytesseract.image_to_string`. -/
inductive ImgBodyErr where
  | tessNotFound (msg : String)
  | tessError (msg : String)
  | other (e : PyExc)

structure ImageData where
  fileIsFile : Bool
  fileSize : Nat
  body : Except ImgBodyErr String

/-- `extract_text_image` (extractors.py lines 145-167): pre-checks raise
descriptive exceptions; `TesseractNotFoundError` and `TesseractError` are
mapped to descriptive `Exception`s; anything else is re-raised
unchanged. -/
def extract_text_image (filepath : String) (d : ImageData) : Except PyExc String :=
  if d.fileIsFile = false then
    .error (.exc ("Image file does not exist: " ++ filepath))
  else if d.fileSize = 0 then
    .error (.exc ("Image file is empty: " ++ filepath))
  else match d.body with
    | .ok t => .ok t
    | .error (.tessNotFound _) =>
        .error (.exc "Tesseract OCR is not installed or not in system PATH.")
    | .error (.tessError m) => .error (.exc ("Tesseract OCR failed: " ++ m))
    | .error (.other e) => .error e

/-- `extract_text_docx` (extractors.py lines 54-61, and the correctly
called method in plugin.py): paragraph texts joined with newlines; any
exception is logged and re-raised unchanged. -/
def extract_text_docx (d : Except PyExc (List String)) : Except PyExc String :=
  match d with
  | .ok paragraphs => .ok (String.intercalate "\n" paragraphs)
  | .error e => .error e

/-- Claim C6 evidence.  The spreadsheet chain violates the claim: with both
readers failing, the result is `UnboundLocalError` about the deleted name
`e`, whose message contains neither underlying error message.  The doc
chain, whose two handlers are still in scope at the composite raise, does
produce a composite message containing both. -/
theorem c6_spreadsheet_composite_lost :
    (extract_text_xlsx "f.xlsx"
        ⟨true, 10, .error (.lib "zipfile" "openpyxl boom"), .ok (),
         .error (.lib "xlrd" "xlrd boom")⟩ =
      .error (.unboundLocal "e")) ∧
    (strContains (PyExc.unboundLocal "e").message "openpyxl boom" = false) ∧
    (strContains (PyExc.unboundLocal "e").message "xlrd boom" = false) ∧
    (extract_text_doc
        ⟨.ok (), .error (.lib "textract" "textract boom"),
         .error (.lib "antiword" "antiword boom")⟩ =
      .error (.exc ("Failed to extract DOC text: textract error: "
        ++ "textract boom" ++ ", antiword error: " ++ "antiword boom"))) ∧
    (strContains (PyExc.exc ("Failed to extract DOC text: textract error: "
        ++ "textract boom" ++ ", antiword error: " ++ "antiword boom")).message
        "textract boom" = true) ∧
    (strContains (PyExc.exc ("Failed to extract DOC text: textract error: "
        ++ "textract boom" ++ ", antiword error: " ++ "antiword boom")).message
        "antiword boom" = true) := by
  refine ⟨rfl, by decide, by decide, rfl, by decide, by decide⟩

/-! ## Remote fetcher and upload (uploaders.py) -/

/-- Python `os.path.basename`: text after the last slash. -/
def basename (p : String) : String :=
  String.mk ((p.toList.reverse.takeWhile (fun c => !(c == '/'))).reverse)

/-- Python `s.split("?")[0]`: text before the first question mark. -/
def beforeQuery (s : String) : String :=
  String.mk (s.toList.takeWhile (fun c => !(c == '?')))

/-- Group matcher for the header regex `filename="?([^";]+)"?` at a
position directly after the literal `filename=`: an optional quote, then
at least one character that is neither a quote nor a semicolon. -/
def cdMatchAt (cs : List Char) : Option String :=
  let body := match cs with
    | '"' :: rest => rest
    | rest => rest
  let g := body.takeWhile (fun c => !(c == '"' || c == ';'))
  if g.isEmpty then none else some (String.mk g)

/-- Left-to-right scan of `re.findall("filename=\"?([^\";]+)\"?", cd)`,
returning the first match group. -/
def cdFindFilename : List Char → Option String
  | [] => none
  | c :: rest =>
      if (c :: rest).take 9 = "filename=".toList then
        match cdMatchAt ((c :: rest).drop 9) with
        | some g => some g
        | none => cdFindFilename rest
      else cdFindFilename rest

/-- Python `s.endswith(suffix)`. -/
def strEndsWith (s suffix : String) : Bool :=
  s.toList.reverse.take suffix.length == suffix.toList.reverse

/-- Filename derivation of `upload_pdf_from_url` (uploaders.py lines
22-36): content-disposition filename when the header is truthy and
matches, else the last path segment of the URL before any query string,
else `document.pdf`; finally a `.pdf` suffix is forced. -/
def derivedName (fileUrl : String) (cd : Option String) : String :=
  let fromCd : Option String :=
    match cd with
    | some s => if s = "" then none else cdFindFilename s.toList
    | none => none
  let name0 := match fromCd with
    | some n => n
    | none =>
        let b := basename (beforeQuery fileUrl)
        if b = "" then "document.pdf" else b
  if strEndsWith (pyLower name0) ".pdf" then name0 else name0 ++ ".pdf"

/-- Oracle for one `resource_create` POST from `upload_to_ckan`: the
request (file open, post, `response.json()`) either raises or yields a
body with a `success` flag and a result id. -/
structure PostResp where
  success : Bool
  resultId : String

structure CkanUploadEnv where
  post : Except PyExc PostResp

/-- `upload_to_ckan` (uploaders.py lines 56-108): every failure path is
caught and returns `None`; on a success body the new resource id is
returned. -/
def upload_to_ckan (env : CkanUploadEnv) : Option String :=
  match env.post with
  | .error _ => none
  | .ok r => if r.success then some r.resultId else none

/-- Oracle for one `requests.get(file_url, stream=True, timeout=30)`:
either the call raises, or a response arrives with a status (good or
not), a content-disposition header, and a body stream that either
completes or raises partway (after the temporary file is created). -/
structure HttpResp where
  statusOk : Bool
  contentDisposition : Option String
  stream : Except PyExc Unit

structure FetchEnv where
  get : Except PyExc HttpResp
  upload : CkanUploadEnv

/-- Observable effects of one `upload_pdf_from_url` call on the temp-file
store and the upload interface. -/
structure FetchTrace where
  tempsCreated : Nat := 0
  tempsRemoved : Nat := 0
  uploadedName : Option String := none
  uploadResult : Option String := none
deriving DecidableEq, Repr

/-- Body of the `try` in `upload_pdf_from_url` (uploaders.py lines 17-48).
The temp file is created by `tempfile.NamedTemporaryFile(delete=False)`
before the body stream is consumed; `os.remove` runs only after
`upload_to_ckan` returns (which it always does — it raises nothing).  On
an error the partial trace observed so far is carried with the
exception. -/
def fetchBody (fileUrl : String) (env : FetchEnv) :
    Except (PyExc × FetchTrace) FetchTrace :=
  match env.get with
  | .error e => .error (e, {})
  | .ok resp =>
      if resp.statusOk = false then
        .error (.lib "requests" ("HTTPError for url " ++ fileUrl), {})
      else
        let name := derivedName fileUrl resp.contentDisposition
        match resp.stream with
        | .error e => .error (e, { tempsCreated := 1 })
        | .ok _ =>
            let uid := upload_to_ckan env.upload
            .ok { tempsCreated := 1, tempsRemoved := 1,
                  uploadedName := some name, uploadResult := uid }

/-- `upload_pdf_from_url` (uploaders.py lines 13-53): the handlers
`except requests.Timeout` and `except Exception` both only log, so the
function returns normally on every input. -/
def upload_pdf_from_url (fileUrl : String) (env : FetchEnv) : FetchTrace :=
  match fetchBody fileUrl env with
  | .ok t => t
  | .error (_, t) => t

/-- Claim C4 evidence: a fetch whose HTTP GET succeeds but whose body
stream raises after the temporary file has been created leaks that file
(created once, never removed), while a fetch whose stream completes does
remove it.  There is no cleanup on the exceptional exit path. -/
theorem c4_temp_leak_on_stream_failure :
    (upload_pdf_from_url "http://host/a.pdf"
        ⟨.ok ⟨true, none, .error .timeout⟩, ⟨.ok ⟨true, "rid"⟩⟩⟩ =
      { tempsCreated := 1, tempsRemoved := 0 }) ∧
    (upload_pdf_from_url "http://host/a.pdf"
        ⟨.ok ⟨true, none, .ok ()⟩, ⟨.ok ⟨true, "rid"⟩⟩⟩ =
      { tempsCreated := 1, tempsRemoved := 1,
        uploadedName := some "a.pdf", uploadResult := some "rid" }) := by
  exact ⟨rfl, rfl⟩

/-! ## JSON values and the manifest interpreter (json_handlers.py) -/

mutual
inductive JVal where
  | str (s : String)
  | num (n : Int)
  | bool (b : Bool)
  | null
  | arr (xs : JList)
  | obj (fs : JFields)
deriving DecidableEq, Repr
inductive JList where
  | nil
  | cons (hd : JVal) (tl : JList)
deriving DecidableEq, Repr
inductive JFields where
  | nil
  | cons (key : String) (val : JVal) (tl : JFields)
deriving DecidableEq, Repr
end

/-- Key membership of the dict built by `json.loads` (`key in d`). -/
def JFields.hasKey : JFields → String → Bool
  | .nil, _ => false
  | .cons k _ t, key => if k = key then true else t.hasKey key

/-- Lookup in the dict built by `json.loads`: on duplicate keys the last
binding wins, as successive assignment during parsing leaves it. -/
def JFields.lookupLast : JFields → String → Option JVal
  | .nil, _ => none
  | .cons k v t, key =>
      match t.lookupLast key with
      | some r => some r
      | none => if k = key then some v else none

/-- Python truthiness of a JSON-derived value. -/
def JVal.truthy : JVal → Bool
  | .str s => !(s == "")
  | .num n => !(n == 0)
  | .bool b => b
  | .null => false
  | .arr .nil => false
  | .arr _ => true
  | .obj .nil => false
  | .obj _ => true

/-- Python `d.get(key, dflt)`: only dicts have `.get`; anything else
raises `AttributeError`. -/
def dictGetD (j : JVal) (key : String) (dflt : JVal) : Except PyExc JVal :=
  match j with
  | .obj fs => .ok ((fs.lookupLast key).getD dflt)
  | _ => .error (.lib "AttributeError" "object has no attribute get")

/-- Python `d.get(key)` with the implicit `None` default. -/
def dictGetOpt (j : JVal) (key : String) : Except PyExc (Option JVal) :=
  match j with
  | .obj fs => .ok (fs.lookupLast key)
  | _ => .error (.lib "AttributeError" "object has no attribute get")

def JFields.keysJList : JFields → JList
  | .nil => .nil
  | .cons k _ t => .cons (.str k) t.keysJList

def charsJList : List Char → JList
  | [] => .nil
  | c :: cs => .cons (.str (String.mk [c])) (charsJList cs)

/-- Python `for x in j`: arrays yield elements, dicts yield their keys,
strings yield one-character strings; numbers, booleans and `None` raise
`TypeError`. -/
def iterElems : JVal → Except PyExc JList
  | .arr xs => .ok xs
  | .obj fs => .ok fs.keysJList
  | .str s => .ok (charsJList s.toList)
  | _ => .error (.lib "TypeError" "object is not iterable")

/-- Python `"releases" in json_obj` on a parsed JSON value: key test on a
dict, element equality on a list, substring test on a string, `TypeError`
otherwise.  (The Python curiosity that `True == 1` is not modelled; no
claim touches it.) -/
def JList.containsStr : JList → String → Bool
  | .nil, _ => false
  | .cons (.str s) t, key => if s = key then true else t.containsStr key
  | .cons _ t, key => t.containsStr key

def pyInTest (j : JVal) (key : String) : Except PyExc Bool :=
  match j with
  | .obj fs => .ok (fs.hasKey key)
  | .arr xs => .ok (xs.containsStr key)
  | .str s => .ok (strContains s key)
  | _ => .error (.lib "TypeError" "argument of type is not iterable")

/-- `requests.get` on a non-string url raises inside the `try` of
`upload_pdf_from_url` and is caught there, producing no temp file and no
upload. -/
def fetchUrlVal (u : JVal) (env : FetchEnv) : FetchTrace :=
  match u with
  | .str s => upload_pdf_from_url s env
  | _ => {}

/-- Inner document loop of the TED branch (json_handlers.py lines 19-24):
`doc.get("url")`, fetch when truthy.  `fenv` supplies the network oracle
for the k-th fetch of the call; an exception aborts the whole loop but the
fetches already made stay made. -/
def collectDocs (fenv : Nat → FetchEnv) :
    JList → Nat → List (JVal × FetchTrace) × Nat × Option PyExc
  | .nil, k => ([], k, none)
  | .cons d ds, k =>
      match dictGetOpt d "url" with
      | .error e => ([], k, some e)
      | .ok none => collectDocs fenv ds k
      | .ok (some v) =>
          if v.truthy then
            let tr := fetchUrlVal v (fenv k)
            let rest := collectDocs fenv ds (k + 1)
            ((v, tr) :: rest.1, rest.2)
          else collectDocs fenv ds k

/-- Outer release loop of the TED branch:
`release.get("tender", {}).get("documents", [])`, then the document
loop. -/
def collectReleases (fenv : Nat → FetchEnv) :
    JList → Nat → List (JVal × FetchTrace) × Nat × Option PyExc
  | .nil, k => ([], k, none)
  | .cons r rs, k =>
      match dictGetD r "tender" (.obj .nil) with
      | .error e => ([], k, some e)
      | .ok tender =>
          match dictGetD tender "documents" (.arr .nil) with
          | .error e => ([], k, some e)
          | .ok docs =>
              match iterElems docs with
              | .error e => ([], k, some e)
              | .ok ds =>
                  match collectDocs fenv ds k with
                  | (us, k2, some e) => (us, k2, some e)
                  | (us, k2, none) =>
                      let rest := collectReleases fenv rs k2
                      (us ++ rest.1, rest.2)

/-- Observable result of one `upload_from_json` call: the url values
passed to `upload_pdf_from_url` paired with their fetch traces, whether
the no-DEU warning was logged, and the exception caught by the outer
handler, if any (it is swallowed either way). -/
structure JsonUploadResult where
  attempts : List (JVal × FetchTrace) := []
  warnedNoDeu : Bool := false
  caught : Option PyExc := none
deriving Repr

/-- `upload_from_json` (json_handlers.py lines 10-39; mirrored as
`DocuvisionPlugin._upload_from_json`): if the value contains `releases`,
walk releases/tender/documents and fetch each truthy `url`; otherwise
look up `links`, `pdf`, `DEU` and fetch that single url or warn.  The
whole body is wrapped in `try/except Exception`, which logs and
returns.  The `dataset_id` argument is only forwarded to the upload form
body, which the upload oracle covers, so it is not threaded here. -/
def upload_from_json (j : JVal) (fenv : Nat → FetchEnv) : JsonUploadResult :=
  match pyInTest j "releases" with
  | .error e => { caught := some e }
  | .ok true =>
      match dictGetD j "releases" (.arr .nil) with
      | .error e => { caught := some e }
      | .ok rel =>
          match iterElems rel with
          | .error e => { caught := some e }
          | .ok relList =>
              match collectReleases fenv relList 0 with
              | (as, _, err) => { attempts := as, caught := err }
  | .ok false =>
      match dictGetD j "links" (.obj .nil) with
      | .error e => { caught := some e }
      | .ok links =>
          match dictGetD links "pdf" (.obj .nil) with
          | .error e => { caught := some e }
          | .ok pdfLinks =>
              match dictGetOpt pdfLinks "DEU" with
              | .error e => { caught := some e }
              | .ok none => { warnedNoDeu := true }
              | .ok (some deu) =>
                  if deu.truthy then
                    { attempts := [(deu, fetchUrlVal deu (fenv 0))] }
                  else { warnedNoDeu := true }

/-! ### Spec-side description of the two manifest shapes.

These definitions follow the spec's words (§4.3): TedRelease collects
every release's tender's documents' `url` fields; BeschaLinks is the
nested `links.pdf.DEU` lookup.  They are compared with the embedded
`upload_from_json` above. -/

/-- Url contributed by one tender document: its `url` field when present
and truthy. -/
def docUrl (d : JVal) : Option JVal :=
  match d with
  | .obj dfs =>
      match dfs.lookupLast "url" with
      | some v => if v.truthy then some v else none
      | none => none
  | _ => none

def specDocsUrls : JList → List JVal
  | .nil => []
  | .cons d ds =>
      (match docUrl d with | some v => [v] | none => []) ++ specDocsUrls ds

/-- Documents list of one release (missing `tender` or `documents` mean
the empty defaults). -/
def releaseDocs (r : JVal) : JList :=
  match r with
  | .obj rfs =>
      match rfs.lookupLast "tender" with
      | some (.obj tf) =>
          (match tf.lookupLast "documents" with
           | some (.arr ds) => ds
           | _ => .nil)
      | _ => .nil
  | _ => .nil

/-- All tender-document urls of a TedRelease manifest, in order. -/
def specTedUrls : JList → List JVal
  | .nil => []
  | .cons r rs => specDocsUrls (releaseDocs r) ++ specTedUrls rs

/-- The `links.pdf.DEU` value of a BeschaLinks manifest, when present. -/
def beschaDeu (fs : JFields) : Option JVal :=
  match fs.lookupLast "links" with
  | some (.obj lf) =>
      (match lf.lookupLast "pdf" with
       | some (.obj pf) => pf.lookupLast "DEU"
       | _ => none)
  | _ => none

def beschaUrls (fs : JFields) : List JVal :=
  match beschaDeu fs with
  | some v => if v.truthy then [v] else []
  | none => []

/-- Well-formedness of the documents list: each entry is an object (so
`doc.get("url")` does not raise). -/
def wfDocs : JList → Bool
  | .nil => true
  | .cons (.obj _) ds => wfDocs ds
  | .cons _ _ => false

/-- Well-formedness of one release: it is an object; its `tender`, when
present, is an object; the tender's `documents`, when present, is an
array of objects. -/
def wfRelease : JVal → Bool
  | .obj rfs =>
      (match rfs.lookupLast "tender" with
       | none => true
       | some (.obj tf) =>
           (match tf.lookupLast "documents" with
            | none => true
            | some (.arr ds) => wfDocs ds
            | some _ => false)
       | some _ => false)
  | _ => false

def wfReleases : JList → Bool
  | .nil => true
  | .cons r rs => wfRelease r && wfReleases rs

/-- Well-formedness of the Bescha lookup path: `links`, when present, is
an object, and its `pdf`, when present, is an object. -/
def wfBescha (fs : JFields) : Bool :=
  match fs.lookupLast "links" with
  | none => true
  | some (.obj lf) =>
      (match lf.lookupLast "pdf" with
       | none => true
       | some (.obj _) => true
       | some _ => false)
  | some _ => false

theorem collectDocs_wf (fenv : Nat → FetchEnv) :
    ∀ (ds : JList), wfDocs ds = true → ∀ k : Nat,
      (collectDocs fenv ds k).1.map Prod.fst = specDocsUrls ds ∧
      (collectDocs fenv ds k).2.2 = none
  | .nil, _, k => by simp [collectDocs, specDocsUrls]
  | .cons d ds', hwf, k => by
      cases d with
      | str s => simp [wfDocs] at hwf
      | num n => simp [wfDocs] at hwf
      | bool b => simp [wfDocs] at hwf
      | null => simp [wfDocs] at hwf
      | arr xs => simp [wfDocs] at hwf
      | obj dfs =>
          have hwf' : wfDocs ds' = true := by simpa [wfDocs] using hwf
          cases hu : dfs.lookupLast "url" with
          | none =>
              have ih := collectDocs_wf fenv ds' hwf' k
              simp [collectDocs, dictGetOpt, hu, specDocsUrls, docUrl, ih.1, ih.2]
          | some v =>
              by_cases ht : v.truthy = true
              · have ih := collectDocs_wf fenv ds' hwf' (k + 1)
                simp [collectDocs, dictGetOpt, hu, ht, specDocsUrls, docUrl,
                  ih.1, ih.2]
              · have ih := collectDocs_wf fenv ds' hwf' k
                simp only [Bool.not_eq_true] at ht
                simp [collectDocs, dictGetOpt, hu, ht, specDocsUrls, docUrl,
                  ih.1, ih.2]

theorem collectReleases_wf (fenv : Nat → FetchEnv) :
    ∀ (rs : JList), wfReleases rs = true → ∀ k : Nat,
      (collectReleases fenv rs k).1.map Prod.fst = specTedUrls rs ∧
      (collectReleases fenv rs k).2.2 = none
  | .nil, _, k => by simp [collectReleases, specTedUrls]
  | .cons r rs', hwf, k => by
      have hr : wfRelease r = true := by
        have := hwf
        simp [wfReleases] at this
        exact this.1
      have hrs' : wfReleases rs' = true := by
        have := hwf
        simp [wfReleases] at this
        exact this.2
      cases r with
      | str s => simp [wfRelease] at hr
      | num n => simp [wfRelease] at hr
      | bool b => simp [wfRelease] at hr
      | null => simp [wfRelease] at hr
      | arr xs => simp [wfRelease] at hr
      | obj rfs =>
          cases htend : rfs.lookupLast "tender" with
          | none =>
              have ih := collectReleases_wf fenv rs' hrs' k
              simp [collectReleases, dictGetD, htend, iterElems, collectDocs,
                specTedUrls, releaseDocs, specDocsUrls, JFields.lookupLast,
                ih.1, ih.2]
          | some tv =>
              cases tv with
              | str s => simp [wfRelease, htend] at hr
              | num n => simp [wfRelease, htend] at hr
              | bool b => simp [wfRelease, htend] at hr
              | null => simp [wfRelease, htend] at hr
              | arr xs => simp [wfRelease, htend] at hr
              | obj tf =>
                  cases hdocs : tf.lookupLast "documents" with
                  | none =>
                      have ih := collectReleases_wf fenv rs' hrs' k
                      simp [collectReleases, dictGetD, htend, hdocs, iterElems,
                        collectDocs, specTedUrls, releaseDocs, specDocsUrls,
                        JFields.lookupLast, ih.1, ih.2]
                  | some dv =>
                      cases dv with
                      | str s => simp [wfRelease, htend, hdocs] at hr
                      | num n => simp [wfRelease, htend, hdocs] at hr
                      | bool b => simp [wfRelease, htend, hdocs] at hr
                      | null => simp [wfRelease, htend, hdocs] at hr
                      | obj g => simp [wfRelease, htend, hdocs] at hr
                      | arr ds =>
                          have hds : wfDocs ds = true := by
                            simpa [wfRelease, htend, hdocs] using hr
                          have hcd := collectDocs_wf fenv ds hds k
                          have ih := collectReleases_wf fenv rs'
                            hrs' (collectDocs fenv ds k).2.1
                          cases hres : collectDocs fenv ds k with
                          | mk us rest =>
                              cases rest with
                              | mk k2 err =>
                                  have herr : err = none := by
                                    have := hcd.2
                                    rw [hres] at this
                                    exact this
                                  subst herr
                                  have hus : us.map Prod.fst = specDocsUrls ds := by
                                    have := hcd.1
                                    rw [hres] at this
                                    exact this
                                  rw [hres] at ih
                                  simp [collectReleases, dictGetD, htend, hdocs,
                                    iterElems, hres, specTedUrls, releaseDocs,
                                    hus, ih.1, ih.2]

/-- Claim C7: manifest classification is first-match with `releases`
checked first.  A JSON object with a top-level `releases` key is always
processed as TedRelease — its tender-document urls are the ones fetched
and the Bescha lookup is never consulted — even if it also contains a
`links.pdf.DEU` path; an object without that key is processed as
BeschaLinks. -/
theorem c7_manifest_first_match (fs : JFields) (fenv : Nat → FetchEnv) :
    (∀ relList, fs.hasKey "releases" = true →
        fs.lookupLast "releases" = some (.arr relList) →
        wfReleases relList = true →
        (upload_from_json (.obj fs) fenv).attempts.map Prod.fst
            = specTedUrls relList ∧
        (upload_from_json (.obj fs) fenv).caught = none ∧
        (upload_from_json (.obj fs) fenv).warnedNoDeu = false) ∧
    (fs.hasKey "releases" = false → wfBescha fs = true →
        (upload_from_json (.obj fs) fenv).attempts.map Prod.fst
            = beschaUrls fs ∧
        (upload_from_json (.obj fs) fenv).caught = none ∧
        (upload_from_json (.obj fs) fenv).warnedNoDeu
            = (beschaUrls fs).isEmpty) := by
  constructor
  · intro relList hkey hrel hwf
    have hcr := collectReleases_wf fenv relList hwf 0
    cases hres : collectReleases fenv relList 0 with
    | mk as rest =>
        cases rest with
        | mk k2 err =>
            have herr : err = none := by
              have := hcr.2
              rw [hres] at this
              exact this
            subst herr
            have has : as.map Prod.fst = specTedUrls relList := by
              have := hcr.1
              rw [hres] at this
              exact this
            simp [upload_from_json, pyInTest, hkey, dictGetD, hrel, iterElems,
              hres, has]
  · intro hkey hwfb
    unfold wfBescha at hwfb
    cases hlinks : fs.lookupLast "links" with
    | none =>
        simp [upload_from_json, pyInTest, hkey, dictGetD, hlinks, dictGetOpt,
          JFields.lookupLast, beschaUrls, beschaDeu]
    | some lv =>
        rw [hlinks] at hwfb
        cases lv with
        | str s => simp at hwfb
        | num n => simp at hwfb
        | bool b => simp at hwfb
        | null => simp at hwfb
        | arr xs => simp at hwfb
        | obj lf =>
            simp only [] at hwfb
            cases hpdf : lf.lookupLast "pdf" with
            | none =>
                simp [upload_from_json, pyInTest, hkey, dictGetD, hlinks, hpdf,
                  dictGetOpt, JFields.lookupLast, beschaUrls, beschaDeu]
            | some pv =>
                rw [hpdf] at hwfb
                cases pv with
                | str s => simp at hwfb
                | num n => simp at hwfb
                | bool b => simp at hwfb
                | null => simp at hwfb
                | arr xs => simp at hwfb
                | obj pf =>
                    cases hdeu : pf.lookupLast "DEU" with
                    | none =>
                        simp [upload_from_json, pyInTest, hkey, dictGetD,
                          hlinks, hpdf, dictGetOpt, hdeu, beschaUrls, beschaDeu]
                    | some deu =>
                        by_cases ht : deu.truthy = true
                        · simp [upload_from_json, pyInTest, hkey, dictGetD,
                            hlinks, hpdf, dictGetOpt, hdeu, ht, beschaUrls,
                            beschaDeu]
                        · simp only [Bool.not_eq_true] at ht
                          simp [upload_from_json, pyInTest, hkey, dictGetD,
                            hlinks, hpdf, dictGetOpt, hdeu, ht, beschaUrls,
                            beschaDeu]

/-- A tender-document list with one document carrying a url. -/
def relListEx : JList :=
  .cons (.obj (.cons "tender"
      (.obj (.cons "documents"
        (.arr (.cons (.obj (.cons "url" (.str "http://ted.example/d1.pdf") .nil))
          .nil)) .nil)) .nil)) .nil

/-- A `links.pdf.DEU` subtree. -/
def linksEx : JVal :=
  .obj (.cons "pdf" (.obj (.cons "DEU" (.str "http://bescha.example/x.pdf") .nil))
    .nil)

/-- A manifest that has BOTH a top-level `releases` key and a
`links.pdf.DEU` path — the coincidence case of claim C7. -/
def fsBoth : JFields :=
  .cons "releases" (.arr relListEx) (.cons "links" linksEx .nil)

/-- The same manifest without the `releases` key. -/
def fsNoRel : JFields := .cons "links" linksEx .nil

def fenvEx : Nat → FetchEnv :=
  fun _ => ⟨.ok ⟨true, none, .ok ()⟩, ⟨.ok ⟨true, "rid"⟩⟩⟩

theorem c7_manifest_first_match_witness :
    ((upload_from_json (.obj fsBoth) fenvEx).attempts.map Prod.fst
        = [.str "http://ted.example/d1.pdf"] ∧
      (upload_from_json (.obj fsBoth) fenvEx).warnedNoDeu = false) ∧
    (upload_from_json (.obj fsNoRel) fenvEx).attempts.map Prod.fst
        = [.str "http://bescha.example/x.pdf"] := by
  have h1 := (c7_manifest_first_match fsBoth fenvEx).1 relListEx
    (by decide) (by decide) (by decide)
  have h2 := (c7_manifest_first_match fsNoRel fenvEx).2 (by decide) (by decide)
  exact ⟨⟨h1.1.trans (by decide), h1.2.2⟩, h2.1.trans (by decide)⟩

theorem collectDocs_indep (f g : Nat → FetchEnv) :
    ∀ (ds : JList) (k : Nat),
      (collectDocs f ds k).1.map Prod.fst = (collectDocs g ds k).1.map Prod.fst ∧
      (collectDocs f ds k).2.1 = (collectDocs g ds k).2.1 ∧
      (collectDocs f ds k).2.2 = (collectDocs g ds k).2.2
  | .nil, k => by simp [collectDocs]
  | .cons d ds', k => by
      cases hd : dictGetOpt d "url" with
      | error e => simp [collectDocs, hd]
      | ok u =>
          cases u with
          | none =>
              have ih := collectDocs_indep f g ds' k
              simp [collectDocs, hd, ih.1, ih.2.1, ih.2.2]
          | some v =>
              by_cases ht : v.truthy = true
              · have ih := collectDocs_indep f g ds' (k + 1)
                simp [collectDocs, hd, ht, ih.1, ih.2.1, ih.2.2]
              · have ih := collectDocs_indep f g ds' k
                simp only [Bool.not_eq_true] at ht
                simp [collectDocs, hd, ht, ih.1, ih.2.1, ih.2.2]

theorem collectReleases_indep (f g : Nat → FetchEnv) :
    ∀ (rs : JList) (k : Nat),
      (collectReleases f rs k).1.map Prod.fst
          = (collectReleases g rs k).1.map Prod.fst ∧
      (collectReleases f rs k).2.1 = (collectReleases g rs k).2.1 ∧
      (collectReleases f rs k).2.2 = (collectReleases g rs k).2.2
  | .nil, k => by simp [collectReleases]
  | .cons r rs', k => by
      cases hten : dictGetD r "tender" (.obj .nil) with
      | error e => simp [collectReleases, hten]
      | ok tender =>
          cases hdocs : dictGetD tender "documents" (.arr .nil) with
          | error e => simp [collectReleases, hten, hdocs]
          | ok docs =>
              cases hit : iterElems docs with
              | error e => simp [collectReleases, hten, hdocs, hit]
              | ok ds =>
                  have hcd := collectDocs_indep f g ds k
                  cases hf : collectDocs f ds k with
                  | mk usf restf =>
                      cases restf with
                      | mk kf errf =>
                          cases hg : collectDocs g ds k with
                          | mk usg restg =>
                              cases restg with
                              | mk kg errg =>
                                  rw [hf, hg] at hcd
                                  obtain ⟨hus, hk, herr⟩ := hcd
                                  simp only at hus hk herr
                                  subst hk
                                  subst herr
                                  cases errf with
                                  | some e =>
                                      simp [collectReleases, hten, hdocs, hit,
                                        hf, hg, hus]
                                  | none =>
                                      have ih := collectReleases_indep f g rs' kf
                                      simp [collectReleases, hten, hdocs, hit,
                                        hf, hg, hus, ih.1, ih.2.1, ih.2.2]

/-- Claim C9: per-URL failure isolation during manifest ingestion.  The
sequence of url values attempted, the warning flag and the caught
exception of `upload_from_json` are the same for every assignment of
network/upload outcomes to the individual fetches: a timeout or any other
failure of one URL's fetch or upload never changes which sibling URLs are
processed and never aborts the batch. -/
theorem c9_per_url_isolation (j : JVal) (f g : Nat → FetchEnv) :
    (upload_from_json j f).attempts.map Prod.fst
        = (upload_from_json j g).attempts.map Prod.fst ∧
    (upload_from_json j f).caught = (upload_from_json j g).caught ∧
    (upload_from_json j f).warnedNoDeu = (upload_from_json j g).warnedNoDeu := by
  cases hin : pyInTest j "releases" with
  | error e => simp [upload_from_json, hin]
  | ok b =>
      cases b with
      | true =>
          cases hrel : dictGetD j "releases" (.arr .nil) with
          | error e => simp [upload_from_json, hin, hrel]
          | ok rel =>
              cases hit : iterElems rel with
              | error e => simp [upload_from_json, hin, hrel, hit]
              | ok relList =>
                  have h := collectReleases_indep f g relList 0
                  cases hf : collectReleases f relList 0 with
                  | mk asf restf =>
                      cases hg : collectReleases g relList 0 with
                      | mk asg restg =>
                          rw [hf, hg] at h
                          simp only at h
                          simp [upload_from_json, hin, hrel, hit, hf, hg, h.1,
                            h.2.2]
      | false =>
          cases hlinks : dictGetD j "links" (.obj .nil) with
          | error e => simp [upload_from_json, hin, hlinks]
          | ok links =>
              cases hpdf : dictGetD links "pdf" (.obj .nil) with
              | error e => simp [upload_from_json, hin, hlinks, hpdf]
              | ok pdfLinks =>
                  cases hdeu : dictGetOpt pdfLinks "DEU" with
                  | error e => simp [upload_from_json, hin, hlinks, hpdf, hdeu]
                  | ok u =>
                      cases u with
                      | none => simp [upload_from_json, hin, hlinks, hpdf, hdeu]
                      | some deu =>
                          by_cases ht : deu.truthy = true
                          · simp [upload_from_json, hin, hlinks, hpdf, hdeu, ht]
                          · simp only [Bool.not_eq_true] at ht
                            simp [upload_from_json, hin, hlinks, hpdf, hdeu, ht]

/-! ## Identifier-token rewriting and JSON parsing (processing.py, `json`
branch of `process_resource`).

`objectIdSub` embeds `re.sub(r'ObjectId\("([0-9a-f]+)"\)', r'"\1"', content)`
as a left-to-right scan.  `json_loads` models the stdlib `json.loads` on
the fragment the manifests use (no escape sequences, integer numbers,
no inter-token whitespace).  The input family for claim C8 — text that is
valid JSON except for embedded identifier tokens — is generated from
`MVal`, a JSON tree which may additionally hold `ObjectId("<hex>")`
tokens at value positions. -/

def digitChar (n : Nat) : Char := Char.ofNat (48 + n)

def natDigitsRev (n : Nat) : List Char :=
  if n < 10 then [digitChar n]
  else digitChar (n % 10) :: natDigitsRev (n / 10)
termination_by n
decreasing_by
  exact Nat.div_lt_self (by omega) (by omega)

def natToChars (n : Nat) : List Char := (natDigitsRev n).reverse

def intToChars (n : Int) : List Char :=
  if n < 0 then '-' :: natToChars n.natAbs else natToChars n.toNat

/-- Lower-case hexadecimal digit, the character class `[0-9a-f]` of the
rewriting regex. -/
def isHexLower (c : Char) : Bool :=
  (48 ≤ c.toNat && c.toNat ≤ 57) || (97 ≤ c.toNat && c.toNat ≤ 102)

/-- Characters allowed inside modelled string literals: anything except a
quote, a backslash (so the renderer needs no escaping) and the letter
`O` (so the only occurrences of the token prefix come from tokens). -/
def safeChar (c : Char) : Bool :=
  !(c == '"') && !(c == '\\') && !(c == 'O')

def safeStr (s : String) : Bool := s.toList.all safeChar

/-- The ten characters `ObjectId("` that open an identifier token. -/
def oidTokenChars : List Char :=
  ['O', 'b', 'j', 'e', 'c', 't', 'I', 'd', '(', '"']

/-- Regex match attempt at the head of `cs`: the literal `ObjectId("`,
one or more lower-case hex digits, then `")`.  Greedy matching of
`[0-9a-f]+` cannot backtrack usefully here because every shorter
candidate ends before a hex digit where the pattern demands a quote. -/
def oidHexAt (cs : List Char) : Option (List Char) :=
  if cs.take 10 = oidTokenChars then
    let t := cs.drop 10
    let h := t.takeWhile isHexLower
    if h.isEmpty then none
    else if (t.drop h.length).take 2 = ['"', ')'] then some h else none
  else none

/-- The scan of `re.sub`: at each position try the token match; on a hit
emit the quoted hex and continue after the token, otherwise emit the
character and move one ahead. -/
def objectIdSubAux : List Char → List Char
  | [] => []
  | c :: rest =>
      match oidHexAt (c :: rest) with
      | some h => '"' :: h ++ '"' :: objectIdSubAux ((c :: rest).drop (12 + h.length))
      | none => c :: objectIdSubAux rest
termination_by cs => cs.length
decreasing_by
  · simp only [List.length_drop, List.length_cons]
    omega
  · simp only [List.length_cons]
    omega

/-- `re.sub(r'ObjectId\("([0-9a-f]+)"\)', r'"\1"', content)`. -/
def objectIdSub (content : String) : String :=
  String.mk (objectIdSubAux content.toList)

/-! ### JSON trees with identifier tokens, and rendering -/

mutual
inductive MVal where
  | str (s : String)
  | num (n : Int)
  | bool (b : Bool)
  | null
  | arr (xs : MList)
  | obj (fs : MFields)
  | oid (hex : String)
deriving DecidableEq, Repr
inductive MList where
  | nil
  | cons (hd : MVal) (tl : MList)
deriving DecidableEq, Repr
inductive MFields where
  | nil
  | cons (key : String) (val : MVal) (tl : MFields)
deriving DecidableEq, Repr
end

mutual
/-- Manifest text: JSON rendering, except that `oid` nodes render as the
raw `ObjectId("<hex>")` token. -/
def renderM : MVal → List Char
  | .str s => '"' :: s.toList ++ ['"']
  | .num n => intToChars n
  | .bool b => if b then "true".toList else "false".toList
  | .null => "null".toList
  | .arr xs => '[' :: renderMList xs ++ [']']
  | .obj fs => '\x7b' :: renderMFields fs ++ ['\x7d']
  | .oid h => oidTokenChars ++ h.toList ++ ['"', ')']
def renderMList : MList → List Char
  | .nil => []
  | .cons v .nil => renderM v
  | .cons v (.cons w t) => renderM v ++ ',' :: renderMList (.cons w t)
def renderMFields : MFields → List Char
  | .nil => []
  | .cons k v .nil => '"' :: k.toList ++ '"' :: ':' :: renderM v
  | .cons k v (.cons k2 w t) =>
      ('"' :: k.toList ++ '"' :: ':' :: renderM v)
        ++ ',' :: renderMFields (.cons k2 w t)
end

mutual
/-- Plain JSON rendering of a parsed value. -/
def renderJ : JVal → List Char
  | .str s => '"' :: s.toList ++ ['"']
  | .num n => intToChars n
  | .bool b => if b then "true".toList else "false".toList
  | .null => "null".toList
  | .arr xs => '[' :: renderJList xs ++ [']']
  | .obj fs => '\x7b' :: renderJFields fs ++ ['\x7d']
def renderJList : JList → List Char
  | .nil => []
  | .cons v .nil => renderJ v
  | .cons v (.cons w t) => renderJ v ++ ',' :: renderJList (.cons w t)
def renderJFields : JFields → List Char
  | .nil => []
  | .cons k v .nil => '"' :: k.toList ++ '"' :: ':' :: renderJ v
  | .cons k v (.cons k2 w t) =>
      ('"' :: k.toList ++ '"' :: ':' :: renderJ v)
        ++ ',' :: renderJFields (.cons k2 w t)
end

mutual
/-- The JSON value denoted by a manifest tree after token rewriting: each
token becomes the plain string of its hex payload. -/
def MVal.strip : MVal → JVal
  | .str s => .str s
  | .num n => .num n
  | .bool b => .bool b
  | .null => .null
  | .arr xs => .arr xs.strip
  | .obj fs => .obj fs.strip
  | .oid h => .str h
def MList.strip : MList → JList
  | .nil => .nil
  | .cons v t => .cons v.strip t.strip
def MFields.strip : MFields → JFields
  | .nil => .nil
  | .cons k v t => .cons k v.strip t.strip
end

mutual
/-- Well-formed manifest trees: strings and keys hold only safe
characters, token payloads are nonempty lower-case hex. -/
def MVal.wf : MVal → Bool
  | .str s => safeStr s
  | .num _ => true
  | .bool _ => true
  | .null => true
  | .arr xs => xs.wf
  | .obj fs => fs.wf
  | .oid h => !h.toList.isEmpty && h.toList.all isHexLower
def MList.wf : MList → Bool
  | .nil => true
  | .cons v t => v.wf && t.wf
def MFields.wf : MFields → Bool
  | .nil => true
  | .cons k v t => safeStr k && v.wf && t.wf
end

mutual
def JVal.wf : JVal → Bool
  | .str s => safeStr s
  | .num _ => true
  | .bool _ => true
  | .null => true
  | .arr xs => xs.wf
  | .obj fs => fs.wf
def JList.wf : JList → Bool
  | .nil => true
  | .cons v t => v.wf && t.wf
def JFields.wf : JFields → Bool
  | .nil => true
  | .cons k v t => safeStr k && v.wf && t.wf
end

/-! ### Behaviour of the rewriting scan -/

theorem oidHexAt_not_O (c : Char) (rest : List Char) (h : ¬ c = 'O') :
    oidHexAt (c :: rest) = none := by
  unfold oidHexAt
  rw [if_neg]
  intro habs
  rw [oidTokenChars] at habs
  simp [List.take_succ_cons] at habs
  exact h habs.1

theorem objectIdSubAux_cons_safe (c : Char) (rest : List Char) (h : ¬ c = 'O') :
    objectIdSubAux (c :: rest) = c :: objectIdSubAux rest := by
  simp only [objectIdSubAux, oidHexAt_not_O c rest h]

theorem objectIdSubAux_append_safe :
    ∀ (a b : List Char), (∀ c ∈ a, ¬ c = 'O') →
      objectIdSubAux (a ++ b) = a ++ objectIdSubAux b
  | [], b, _ => by simp
  | c :: a', b, h => by
      rw [List.cons_append, objectIdSubAux_cons_safe c _ (h c (by simp)),
        objectIdSubAux_append_safe a' b (fun x hx => h x (by simp [hx]))]
      simp

theorem takeWhile_append_all (p : Char → Bool) :
    ∀ (h : List Char), (∀ c ∈ h, p c = true) →
      ∀ (d : Char) (t : List Char), p d = false →
        (h ++ d :: t).takeWhile p = h
  | [], _, d, t, hd => by simp [List.takeWhile_cons, hd]
  | c :: h', hall, d, t, hd => by
      simp only [List.cons_append, List.takeWhile_cons, hall c (by simp),
        if_true]
      rw [takeWhile_append_all p h' (fun x hx => hall x (by simp [hx])) d t hd]

theorem objectIdSubAux_step_token (cs : List Char) (hx : List Char)
    (h : oidHexAt cs = some hx) (hne : cs ≠ []) :
    objectIdSubAux cs
      = '"' :: hx ++ '"' :: objectIdSubAux (cs.drop (12 + hx.length)) := by
  cases cs with
  | nil => exact absurd rfl hne
  | cons c rest => simp only [objectIdSubAux, h]

theorem objectIdSubAux_token (hx : List Char) (b : List Char)
    (hne : hx ≠ []) (hhex : ∀ c ∈ hx, isHexLower c = true) :
    objectIdSubAux (oidTokenChars ++ hx ++ '"' :: ')' :: b)
      = '"' :: hx ++ '"' :: objectIdSubAux b := by
  have h10 : oidTokenChars.length = 10 := rfl
  have hdropHx : List.drop hx.length (hx ++ '"' :: ')' :: b) = '"' :: ')' :: b :=
    List.drop_left _ _
  have hmatch : oidHexAt (oidTokenChars ++ hx ++ '"' :: ')' :: b) = some hx := by
    have h1 : List.take 10 (oidTokenChars ++ hx ++ '"' :: ')' :: b)
        = oidTokenChars := by
      rw [← h10]; exact List.take_left _ _
    have h2 : List.drop 10 (oidTokenChars ++ hx ++ '"' :: ')' :: b)
        = hx ++ '"' :: ')' :: b := by
      rw [← h10]; exact List.drop_left _ _
    have h3 : List.takeWhile isHexLower (hx ++ '"' :: ')' :: b) = hx :=
      takeWhile_append_all isHexLower hx hhex '"' (')' :: b) (by decide)
    have h4 : hx.isEmpty = false := by simpa using hne
    simp only [oidHexAt, h1, h2, h3, h4, hdropHx]
    simp
  have hdrop : (oidTokenChars ++ hx ++ '"' :: ')' :: b).drop (12 + hx.length)
      = b := by
    have hsplit : oidTokenChars ++ hx ++ '"' :: ')' :: b
        = (oidTokenChars ++ hx ++ ['"', ')']) ++ b := by simp
    have hlen : (oidTokenChars ++ hx ++ ['"', ')']).length = 12 + hx.length := by
      simp [oidTokenChars]
      omega
    rw [hsplit, ← hlen]
    exact List.drop_left _ _
  rw [objectIdSubAux_step_token _ hx hmatch (by simp [oidTokenChars]), hdrop]

theorem digitChar_isDigit (d : Nat) (h : d < 10) : (digitChar d).isDigit = true := by
  interval_cases d <;> decide

theorem digitChar_toNat (d : Nat) (h : d < 10) : (digitChar d).toNat = 48 + d := by
  interval_cases d <;> decide

theorem natDigitsRev_digits (n : Nat) : ∀ c ∈ natDigitsRev n, c.isDigit = true := by
  unfold natDigitsRev
  split
  · next h =>
      intro c hc
      simp at hc
      subst hc
      exact digitChar_isDigit n h
  · next h =>
      intro c hc
      simp at hc
      rcases hc with hc | hc
      · subst hc
        exact digitChar_isDigit _ (Nat.mod_lt _ (by omega))
      · exact natDigitsRev_digits (n / 10) c hc
termination_by n
decreasing_by exact Nat.div_lt_self (by omega) (by omega)

theorem digit_not_O (c : Char) (h : c.isDigit = true) : ¬ c = 'O' := by
  intro hc
  subst hc
  exact absurd h (by decide)

theorem intToChars_not_O (n : Int) : ∀ c ∈ intToChars n, ¬ c = 'O' := by
  intro c hc
  unfold intToChars at hc
  split at hc
  · simp at hc
    rcases hc with hc | hc
    · subst hc; decide
    · exact digit_not_O c (natDigitsRev_digits _ c (by
        simpa [natToChars] using hc))
  · exact digit_not_O c (natDigitsRev_digits _ c (by
      simpa [natToChars] using hc))

theorem safeStr_not_O (s : String) (h : safeStr s = true) :
    ∀ c ∈ s.toList, ¬ c = 'O' := by
  intro c hc
  have hall := (List.all_eq_true.mp h) c hc
  unfold safeChar at hall
  simp at hall
  exact hall.2

theorem hex_not_O (c : Char) (h : isHexLower c = true) : ¬ c = 'O' := by
  intro hc
  subst hc
  exact absurd h (by decide)

mutual

theorem sub_renderM : ∀ (m : MVal), MVal.wf m = true → ∀ (b : List Char),
    objectIdSubAux (renderM m ++ b) = renderJ m.strip ++ objectIdSubAux b
  | .str s, hwf, b => by
      have hall : ∀ c ∈ ('"' :: s.toList ++ ['"']), ¬ c = 'O' := by
        intro c hc
        simp at hc
        rcases hc with hc | hc | hc
        · subst hc; decide
        · exact safeStr_not_O s (by simpa [MVal.wf] using hwf) c hc
        · subst hc; decide
      simpa [renderM, renderJ, MVal.strip] using
        objectIdSubAux_append_safe ('"' :: s.toList ++ ['"']) b hall
  | .num n, _, b => by
      simpa [renderM, renderJ, MVal.strip] using
        objectIdSubAux_append_safe (intToChars n) b (intToChars_not_O n)
  | .bool bv, _, b => by
      cases bv
      · simpa [renderM, renderJ, MVal.strip] using
          objectIdSubAux_append_safe "false".toList b (by decide)
      · simpa [renderM, renderJ, MVal.strip] using
          objectIdSubAux_append_safe "true".toList b (by decide)
  | .null, _, b => by
      simpa [renderM, renderJ, MVal.strip] using
        objectIdSubAux_append_safe "null".toList b (by decide)
  | .arr xs, hwf, b => by
      have hwf' : MList.wf xs = true := by simpa [MVal.wf] using hwf
      have step : objectIdSubAux (renderM (.arr xs) ++ b)
          = '[' :: objectIdSubAux (renderMList xs ++ ']' :: b) := by
        show objectIdSubAux (('[' :: renderMList xs ++ [']']) ++ b) = _
        simp only [List.cons_append, List.append_assoc, List.singleton_append]
        rw [objectIdSubAux_cons_safe '[' _ (by decide)]
        simp
      rw [step, sub_renderMList xs hwf' (']' :: b),
        objectIdSubAux_cons_safe ']' b (by decide)]
      simp [renderJ, MVal.strip]
  | .obj fs, hwf, b => by
      have hwf' : MFields.wf fs = true := by simpa [MVal.wf] using hwf
      have step : objectIdSubAux (renderM (.obj fs) ++ b)
          = '\x7b' :: objectIdSubAux (renderMFields fs ++ '\x7d' :: b) := by
        show objectIdSubAux (('\x7b' :: renderMFields fs ++ ['\x7d']) ++ b) = _
        simp only [List.cons_append, List.append_assoc, List.singleton_append]
        rw [objectIdSubAux_cons_safe '\x7b' _ (by decide)]
        simp
      rw [step, sub_renderMFields fs hwf' ('\x7d' :: b),
        objectIdSubAux_cons_safe '\x7d' b (by decide)]
      simp [renderJ, MVal.strip]
  | .oid hx, hwf, b => by
      simp only [MVal.wf, Bool.and_eq_true, Bool.not_eq_true',
        List.all_eq_true] at hwf
      have hne : hx.toList ≠ [] := by
        intro hc
        rw [hc] at hwf
        exact Bool.noConfusion (hwf.1.symm.trans (by decide : ([] : List Char).isEmpty = true))
      have hhex : ∀ c ∈ hx.toList, isHexLower c = true := fun c hc => hwf.2 c hc
      have := objectIdSubAux_token hx.toList b hne hhex
      simpa [renderM, renderJ, MVal.strip] using this

theorem sub_renderMList : ∀ (l : MList), MList.wf l = true → ∀ (b : List Char),
    objectIdSubAux (renderMList l ++ b) = renderJList l.strip ++ objectIdSubAux b
  | .nil, _, b => by simp [renderMList, MList.strip, renderJList]
  | .cons v .nil, hwf, b => by
      have hv : MVal.wf v = true := by
        simp only [MList.wf, Bool.and_eq_true] at hwf
        exact hwf.1
      simpa [renderMList, MList.strip, renderJList] using sub_renderM v hv b
  | .cons v (.cons w t), hwf, b => by
      simp only [MList.wf, Bool.and_eq_true] at hwf
      have hv : MVal.wf v = true := hwf.1
      have hwt : MList.wf (.cons w t) = true := by
        simp only [MList.wf, Bool.and_eq_true]
        exact hwf.2
      have step : objectIdSubAux (renderMList (.cons v (.cons w t)) ++ b)
          = objectIdSubAux (renderM v ++ ',' :: (renderMList (.cons w t) ++ b)) := by
        show objectIdSubAux ((renderM v ++ ',' :: renderMList (.cons w t)) ++ b) = _
        simp
      rw [step, sub_renderM v hv _,
        objectIdSubAux_cons_safe ',' _ (by decide),
        sub_renderMList (.cons w t) hwt b]
      simp [MList.strip, renderJList]

theorem sub_renderMFields : ∀ (l : MFields), MFields.wf l = true →
    ∀ (b : List Char),
      objectIdSubAux (renderMFields l ++ b)
        = renderJFields l.strip ++ objectIdSubAux b
  | .nil, _, b => by simp [renderMFields, MFields.strip, renderJFields]
  | .cons k v .nil, hwf, b => by
      simp only [MFields.wf, Bool.and_eq_true] at hwf
      have hk : safeStr k = true := hwf.1.1
      have hv : MVal.wf v = true := hwf.1.2
      have hall : ∀ c ∈ ('"' :: k.toList ++ ['"', ':']), ¬ c = 'O' := by
        intro c hc
        simp at hc
        rcases hc with hc | hc | hc | hc
        · subst hc; decide
        · exact safeStr_not_O k hk c hc
        · subst hc; decide
        · subst hc; decide
      have step : objectIdSubAux (renderMFields (.cons k v .nil) ++ b)
          = objectIdSubAux (('"' :: k.toList ++ ['"', ':']) ++ (renderM v ++ b)) := by
        show objectIdSubAux (('"' :: k.toList ++ '"' :: ':' :: renderM v) ++ b) = _
        simp
      rw [step, objectIdSubAux_append_safe _ _ hall, sub_renderM v hv b]
      simp [MFields.strip, renderJFields]
  | .cons k v (.cons k2 w t), hwf, b => by
      simp only [MFields.wf, Bool.and_eq_true] at hwf
      have hk : safeStr k = true := hwf.1.1
      have hv : MVal.wf v = true := hwf.1.2
      have hwt : MFields.wf (.cons k2 w t) = true := by
        simp only [MFields.wf, Bool.and_eq_true]
        exact hwf.2
      have hall : ∀ c ∈ ('"' :: k.toList ++ ['"', ':']), ¬ c = 'O' := by
        intro c hc
        simp at hc
        rcases hc with hc | hc | hc | hc
        · subst hc; decide
        · exact safeStr_not_O k hk c hc
        · subst hc; decide
        · subst hc; decide
      have step : objectIdSubAux (renderMFields (.cons k v (.cons k2 w t)) ++ b)
          = objectIdSubAux (('"' :: k.toList ++ ['"', ':'])
              ++ (renderM v ++ ',' :: (renderMFields (.cons k2 w t) ++ b))) := by
        show objectIdSubAux ((('"' :: k.toList ++ '"' :: ':' :: renderM v)
            ++ ',' :: renderMFields (.cons k2 w t)) ++ b) = _
        simp
      rw [step, objectIdSubAux_append_safe _ _ hall, sub_renderM v hv _,
        objectIdSubAux_cons_safe ',' _ (by decide),
        sub_renderMFields (.cons k2 w t) hwt b]
      simp [MFields.strip, renderJFields]

end

/-- Token rewriting turns the rendered manifest text into the plain JSON
text of the stripped tree. -/
theorem objectIdSub_renderM (m : MVal) (hwf : MVal.wf m = true) :
    objectIdSubAux (renderM m) = renderJ m.strip := by
  have h := sub_renderM m hwf []
  simpa [objectIdSubAux] using h

/-! ### A model of `json.loads` on the manifest fragment (integer
numbers, escape-free strings, no inter-token whitespace). -/

def parseStringBody (cs : List Char) : Option (String × List Char) :=
  let s := cs.takeWhile (fun c => !(c == '"'))
  match cs.drop s.length with
  | '"' :: r => some (String.mk s, r)
  | _ => none

def parseNatChars (cs : List Char) : Option (Nat × List Char) :=
  let ds := cs.takeWhile Char.isDigit
  if ds.isEmpty then none
  else some (ds.foldl (fun a c => a * 10 + (c.toNat - 48)) 0, cs.drop ds.length)

mutual
def parseVal : Nat → List Char → Option (JVal × List Char)
  | 0, _ => none
  | fuel + 1, cs =>
      match cs with
        | 'n' :: r =>
            if r.take 3 = ['u', 'l', 'l'] then some (.null, r.drop 3) else none
        | 't' :: r =>
            if r.take 3 = ['r', 'u', 'e'] then some (.bool true, r.drop 3)
            else none
        | 'f' :: r =>
            if r.take 4 = ['a', 'l', 's', 'e'] then some (.bool false, r.drop 4)
            else none
        | '"' :: r =>
            (match parseStringBody r with
             | some (s, r2) => some (.str s, r2)
             | none => none)
        | '-' :: r =>
            (match parseNatChars r with
             | some (n, r2) => some (.num (-(n : Int)), r2)
             | none => none)
        | '[' :: r =>
            (match r with
             | ']' :: r2 => some (.arr .nil, r2)
             | _ =>
                match parseArrItems fuel r with
                | some (l, r2) => some (.arr l, r2)
                | none => none)
        | '\x7b' :: r =>
            (match r with
             | '\x7d' :: r2 => some (.obj .nil, r2)
             | _ =>
                match parseObjItems fuel r with
                | some (l, r2) => some (.obj l, r2)
                | none => none)
        | c :: r =>
            if c.isDigit then
              match parseNatChars (c :: r) with
              | some (n, r2) => some (.num (n : Int), r2)
              | none => none
            else none
        | [] => none

def parseArrItems : Nat → List Char → Option (JList × List Char)
  | 0, _ => none
  | fuel + 1, cs =>
      match parseVal fuel cs with
      | none => none
      | some (v, r) =>
          match r with
          | ',' :: r2 =>
              (match parseArrItems fuel r2 with
               | some (l, r3) => some (.cons v l, r3)
               | none => none)
          | ']' :: r2 => some (.cons v .nil, r2)
          | _ => none

def parseObjItems : Nat → List Char → Option (JFields × List Char)
  | 0, _ => none
  | fuel + 1, cs =>
      match cs with
      | '"' :: r =>
          (match parseStringBody r with
           | none => none
           | some (k, r2) =>
              match r2 with
              | ':' :: r3 =>
                  (match parseVal fuel r3 with
                   | none => none
                   | some (v, r4) =>
                      match r4 with
                      | ',' :: r5 =>
                          (match parseObjItems fuel r5 with
                           | some (l, r6) => some (.cons k v l, r6)
                           | none => none)
                      | '\x7d' :: r5 => some (.cons k v .nil, r5)
                      | _ => none)
              | _ => none)
      | _ => none
end

mutual
/-- Recursion budget needed to parse a value. -/
def jsize : JVal → Nat
  | .str _ => 1
  | .num _ => 1
  | .bool _ => 1
  | .null => 1
  | .arr xs => jsizeL xs + 1
  | .obj fs => jsizeF fs + 1
def jsizeL : JList → Nat
  | .nil => 0
  | .cons v t => jsize v + jsizeL t + 1
def jsizeF : JFields → Nat
  | .nil => 0
  | .cons _ v t => jsize v + jsizeF t + 1
end

/-- Model of `json.loads` on a whole document: parse one value and demand
that nothing follows. -/
def json_loads (s : String) : Option JVal :=
  match parseVal (s.toList.length + 1) s.toList with
  | some (v, []) => some v
  | _ => none

/-! ### Parser-printer roundtrip on well-formed values -/

theorem takeWhile_all (p : Char → Bool) :
    ∀ (l : List Char), (∀ c ∈ l, p c = true) → l.takeWhile p = l
  | [], _ => rfl
  | c :: l', h => by
      simp only [List.takeWhile_cons, h c (by simp), if_true]
      rw [takeWhile_all p l' (fun x hx => h x (by simp [hx]))]

theorem parseStringBody_render (s : String) (hs : safeStr s = true)
    (rest : List Char) :
    parseStringBody (s.toList ++ '"' :: rest) = some (s, rest) := by
  have hall : ∀ c ∈ s.toList, (!(c == '"')) = true := by
    intro c hc
    have := (List.all_eq_true.mp hs) c hc
    unfold safeChar at this
    simp only [Bool.and_eq_true] at this
    exact this.1.1
  have htw : (s.toList ++ '"' :: rest).takeWhile (fun c => !(c == '"'))
      = s.toList :=
    takeWhile_append_all _ s.toList hall '"' rest (by decide)
  unfold parseStringBody
  simp only [htw]
  rw [List.drop_left]
  rfl

theorem natDigitsRev_foldr (n : Nat) :
    (natDigitsRev n).foldr (fun c a => a * 10 + (c.toNat - 48)) 0 = n := by
  unfold natDigitsRev
  split
  · next h =>
      simp [digitChar_toNat n h]
  · next h =>
      rw [List.foldr_cons, natDigitsRev_foldr (n / 10)]
      rw [digitChar_toNat _ (Nat.mod_lt _ (by omega))]
      omega
termination_by n
decreasing_by exact Nat.div_lt_self (by omega) (by omega)

theorem natToChars_foldl (n : Nat) :
    (natToChars n).foldl (fun a c => a * 10 + (c.toNat - 48)) 0 = n := by
  unfold natToChars
  rw [List.foldl_reverse]
  exact natDigitsRev_foldr n

theorem natToChars_ne_nil (n : Nat) : natToChars n ≠ [] := by
  unfold natToChars natDigitsRev
  split <;> simp

theorem natToChars_digits (n : Nat) : ∀ c ∈ natToChars n, c.isDigit = true := by
  intro c hc
  exact natDigitsRev_digits n c (by simpa [natToChars] using hc)

theorem parseNatChars_render (n : Nat) (rest : List Char)
    (hrest : rest = [] ∨ ∃ d t, rest = d :: t ∧ d.isDigit = false) :
    parseNatChars (natToChars n ++ rest) = some (n, rest) := by
  have htw : (natToChars n ++ rest).takeWhile Char.isDigit = natToChars n := by
    rcases hrest with h | ⟨d, t, hdt, hd⟩
    · subst h
      rw [List.append_nil]
      exact takeWhile_all _ _ (natToChars_digits n)
    · subst hdt
      exact takeWhile_append_all _ _ (natToChars_digits n) d t hd
  unfold parseNatChars
  simp only [htw]
  rw [if_neg (by simpa using natToChars_ne_nil n)]
  rw [natToChars_foldl, List.drop_left]

theorem parseNatChars_int (z : Int) (hz : 0 ≤ z) (rest : List Char)
    (hrest : rest = [] ∨ ∃ d t, rest = d :: t ∧ d.isDigit = false) :
    parseNatChars (intToChars z ++ rest) = some (z.toNat, rest) := by
  unfold intToChars
  rw [if_neg (by omega)]
  exact parseNatChars_render z.toNat rest hrest

/-- Stop characters that may legally follow a rendered value inside a
document: the separators and closers of the surrounding structure. -/
def restStop (rest : List Char) : Prop :=
  rest = [] ∨ ∃ d t, rest = d :: t ∧ (d = ',' ∨ d = ']' ∨ d = '\x7d')

theorem restStop_noDigit (rest : List Char) (h : restStop rest) :
    rest = [] ∨ ∃ d t, rest = d :: t ∧ d.isDigit = false := by
  rcases h with h | ⟨d, t, hdt, hd⟩
  · exact Or.inl h
  · refine Or.inr ⟨d, t, hdt, ?_⟩
    rcases hd with hd | hd | hd <;> subst hd <;> decide

theorem parseVal_digit (fuel : Nat) (c : Char) (r : List Char)
    (h : c.isDigit = true) :
    parseVal (fuel + 1) (c :: r)
      = (match parseNatChars (c :: r) with
         | some (n, r2) => some (.num (n : Int), r2)
         | none => none) := by
  have h1 : ¬ c = 'n' := by intro he; subst he; exact absurd h (by decide)
  have h2 : ¬ c = 't' := by intro he; subst he; exact absurd h (by decide)
  have h3 : ¬ c = 'f' := by intro he; subst he; exact absurd h (by decide)
  have h4 : ¬ c = '"' := by intro he; subst he; exact absurd h (by decide)
  have h5 : ¬ c = '-' := by intro he; subst he; exact absurd h (by decide)
  have h6 : ¬ c = '[' := by intro he; subst he; exact absurd h (by decide)
  have h7 : ¬ c = '\x7b' := by intro he; subst he; exact absurd h (by decide)
  simp [parseVal, h1, h2, h3, h4, h5, h6, h7, h]

theorem parseVal_lbrack_cons (fuel : Nat) (d : Char) (t : List Char)
    (hd : ¬ d = ']') :
    parseVal (fuel + 1) ('[' :: d :: t)
      = (match parseArrItems fuel (d :: t) with
         | some (l, r2) => some (.arr l, r2)
         | none => none) := by
  simp [parseVal, hd]

theorem parseVal_lbrace_cons (fuel : Nat) (d : Char) (t : List Char)
    (hd : ¬ d = '\x7d') :
    parseVal (fuel + 1) ('\x7b' :: d :: t)
      = (match parseObjItems fuel (d :: t) with
         | some (l, r2) => some (.obj l, r2)
         | none => none) := by
  simp [parseVal, hd]

theorem digit_not_close (c : Char) (h : c.isDigit = true) :
    ¬ c = ']' ∧ ¬ c = '\x7d' := by
  constructor <;> intro he <;> subst he <;> exact absurd h (by decide)

/-- Every rendered value begins with a character that is not a closing
bracket, so the empty-collection peek never mistakes it. -/
theorem renderJ_head_ok (v : JVal) :
    ∃ c t, renderJ v = c :: t ∧ ¬ c = ']' ∧ ¬ c = '\x7d' := by
  cases v with
  | str s => exact ⟨'"', _, rfl, by decide, by decide⟩
  | num n =>
      unfold renderJ intToChars
      split
      · exact ⟨'-', _, rfl, by decide, by decide⟩
      · cases hl : natToChars n.toNat with
        | nil => exact absurd hl (natToChars_ne_nil _)
        | cons c t =>
            have hc : c.isDigit = true :=
              natToChars_digits _ c (by rw [hl]; simp)
            exact ⟨c, t, rfl, (digit_not_close c hc).1, (digit_not_close c hc).2⟩
  | bool b =>
      cases b
      · exact ⟨'f', _, rfl, by decide, by decide⟩
      · exact ⟨'t', _, rfl, by decide, by decide⟩
  | null => exact ⟨'n', _, rfl, by decide, by decide⟩
  | arr xs => exact ⟨'[', _, rfl, by decide, by decide⟩
  | obj fs => exact ⟨'\x7b', _, rfl, by decide, by decide⟩

mutual

theorem jsize_le_render : ∀ (v : JVal), jsize v ≤ (renderJ v).length
  | .str s => by simp [jsize, renderJ]
  | .num n => by
      have := List.length_pos.mpr (natToChars_ne_nil n.toNat)
      have := List.length_pos.mpr (natToChars_ne_nil n.natAbs)
      unfold jsize renderJ intToChars
      split <;> (simp; try omega)
  | .bool b => by cases b <;> simp [jsize, renderJ]
  | .null => by simp [jsize, renderJ]
  | .arr xs => by
      have := jsizeL_le_render xs
      simp [jsize, renderJ]
      omega
  | .obj fs => by
      have := jsizeF_le_render fs
      simp [jsize, renderJ]
      omega

theorem jsizeL_le_render : ∀ (l : JList), jsizeL l ≤ (renderJList l).length + 1
  | .nil => by simp [jsizeL, renderJList]
  | .cons v .nil => by
      have := jsize_le_render v
      simp [jsizeL, renderJList, jsizeL.eq_1]
      omega
  | .cons v (.cons w t) => by
      have h1 := jsize_le_render v
      have h2 := jsizeL_le_render (.cons w t)
      simp [jsizeL, renderJList] at h2 ⊢
      omega

theorem jsizeF_le_render : ∀ (f : JFields), jsizeF f ≤ (renderJFields f).length + 1
  | .nil => by simp [jsizeF, renderJFields]
  | .cons k v .nil => by
      have := jsize_le_render v
      simp [jsizeF, renderJFields, jsizeF.eq_1]
      omega
  | .cons k v (.cons k2 w t) => by
      have h1 := jsize_le_render v
      have h2 := jsizeF_le_render (.cons k2 w t)
      simp [jsizeF, renderJFields] at h2 ⊢
      omega

end

theorem hex_safe (c : Char) (h : isHexLower c = true) : safeChar c = true := by
  by_cases h1 : c = '"'
  · subst h1; exact absurd h (by decide)
  by_cases h2 : c = '\\'
  · subst h2; exact absurd h (by decide)
  by_cases h3 : c = 'O'
  · subst h3; exact absurd h (by decide)
  simp [safeChar, h1, h2, h3]

mutual

theorem strip_wf : ∀ (m : MVal), MVal.wf m = true → JVal.wf m.strip = true
  | .str s, h => by simpa [MVal.wf, MVal.strip, JVal.wf] using h
  | .num _, _ => rfl
  | .bool _, _ => rfl
  | .null, _ => rfl
  | .arr xs, h => by
      simpa [MVal.wf, MVal.strip, JVal.wf] using
        stripL_wf xs (by simpa [MVal.wf] using h)
  | .obj fs, h => by
      simpa [MVal.wf, MVal.strip, JVal.wf] using
        stripF_wf fs (by simpa [MVal.wf] using h)
  | .oid hx, h => by
      simp only [MVal.wf, Bool.and_eq_true, List.all_eq_true] at h
      simp only [MVal.strip, JVal.wf, safeStr, List.all_eq_true]
      exact fun c hc => hex_safe c (h.2 c hc)

theorem stripL_wf : ∀ (l : MList), MList.wf l = true → JList.wf l.strip = true
  | .nil, _ => rfl
  | .cons v t, h => by
      simp only [MList.wf, Bool.and_eq_true] at h
      simp only [MList.strip, JList.wf, Bool.and_eq_true]
      exact ⟨strip_wf v h.1, stripL_wf t h.2⟩

theorem stripF_wf : ∀ (f : MFields), MFields.wf f = true → JFields.wf f.strip = true
  | .nil, _ => rfl
  | .cons k v t, h => by
      simp only [MFields.wf, Bool.and_eq_true] at h
      simp only [MFields.strip, JFields.wf, Bool.and_eq_true]
      exact ⟨⟨h.1.1, strip_wf v h.1.2⟩, stripF_wf t h.2⟩

end

theorem restStop_comma (xs : List Char) : restStop (',' :: xs) :=
  Or.inr ⟨',', xs, rfl, Or.inl rfl⟩

theorem restStop_rbrack (xs : List Char) : restStop (']' :: xs) :=
  Or.inr ⟨']', xs, rfl, Or.inr (Or.inl rfl)⟩

theorem restStop_rbrace (xs : List Char) : restStop ('\x7d' :: xs) :=
  Or.inr ⟨'\x7d', xs, rfl, Or.inr (Or.inr rfl)⟩

mutual

theorem parse_renderJ : ∀ (v : JVal), JVal.wf v = true → ∀ (fuel : Nat),
    jsize v ≤ fuel → ∀ (rest : List Char), restStop rest →
      parseVal fuel (renderJ v ++ rest) = some (v, rest)
  | .null, _, fuel, hfuel, rest, _ => by
      obtain ⟨g, rfl⟩ : ∃ g, fuel = g + 1 :=
        ⟨fuel - 1, by simp [jsize] at hfuel; omega⟩
      rfl
  | .bool b, _, fuel, hfuel, rest, _ => by
      obtain ⟨g, rfl⟩ : ∃ g, fuel = g + 1 :=
        ⟨fuel - 1, by simp [jsize] at hfuel; omega⟩
      cases b <;> rfl
  | .str s, hwf, fuel, hfuel, rest, _ => by
      obtain ⟨g, rfl⟩ : ∃ g, fuel = g + 1 :=
        ⟨fuel - 1, by simp [jsize] at hfuel; omega⟩
      have halign : renderJ (.str s) ++ rest = '"' :: (s.toList ++ '"' :: rest) := by
        simp [renderJ]
      rw [halign]
      have hstep : parseVal (g + 1) ('"' :: (s.toList ++ '"' :: rest))
          = (match parseStringBody (s.toList ++ '"' :: rest) with
             | some (s2, r2) => some (.str s2, r2)
             | none => none) := rfl
      rw [hstep, parseStringBody_render s (by simpa [JVal.wf] using hwf) rest]
  | .num n, _, fuel, hfuel, rest, hrest => by
      obtain ⟨g, rfl⟩ : ∃ g, fuel = g + 1 :=
        ⟨fuel - 1, by simp [jsize] at hfuel; omega⟩
      by_cases hneg : n < 0
      · have halign : renderJ (.num n) ++ rest
            = '-' :: (natToChars n.natAbs ++ rest) := by
          simp [renderJ, intToChars, hneg]
        rw [halign]
        have hstep : parseVal (g + 1) ('-' :: (natToChars n.natAbs ++ rest))
            = (match parseNatChars (natToChars n.natAbs ++ rest) with
               | some (m, r2) => some (.num (-(m : Int)), r2)
               | none => none) := rfl
        rw [hstep, parseNatChars_render n.natAbs rest (restStop_noDigit rest hrest)]
        have hval : -((n.natAbs : Int)) = n := by omega
        show some (JVal.num (-((n.natAbs : Int))), rest) = some (JVal.num n, rest)
        rw [hval]
      · push_neg at hneg
        cases hl : natToChars n.toNat with
        | nil => exact absurd hl (natToChars_ne_nil _)
        | cons c ct =>
            have hc : c.isDigit = true :=
              natToChars_digits _ c (by rw [hl]; simp)
            have halign : renderJ (.num n) ++ rest = c :: (ct ++ rest) := by
              simp [renderJ, intToChars, not_lt.mpr hneg, hl]
            rw [halign, parseVal_digit g c (ct ++ rest) hc]
            have hback : c :: (ct ++ rest) = natToChars n.toNat ++ rest := by
              rw [hl]
              simp
            rw [hback, parseNatChars_render n.toNat rest (restStop_noDigit rest hrest)]
            have hval : ((n.toNat : Int)) = n := by omega
            simp [hval]
  | .arr .nil, _, fuel, hfuel, rest, _ => by
      obtain ⟨g, rfl⟩ : ∃ g, fuel = g + 1 :=
        ⟨fuel - 1, by simp [jsize] at hfuel; omega⟩
      rfl
  | .arr (.cons v t), hwf, fuel, hfuel, rest, hrest => by
      obtain ⟨g, rfl⟩ : ∃ g, fuel = g + 1 :=
        ⟨fuel - 1, by simp [jsize] at hfuel; omega⟩
      have hsz : jsizeL (.cons v t) ≤ g := by
        simp [jsize] at hfuel
        omega
      obtain ⟨c, rr, hlist, hcne⟩ :
          ∃ c rr, renderJList (.cons v t) ++ ']' :: rest = c :: rr ∧ ¬ c = ']' := by
        obtain ⟨c, ct, hrv, hc1, _⟩ := renderJ_head_ok v
        cases t with
        | nil => exact ⟨c, ct ++ ']' :: rest, by simp [renderJList, hrv], hc1⟩
        | cons w t' =>
            exact ⟨c, ct ++ ',' :: renderJList (.cons w t') ++ ']' :: rest,
              by simp [renderJList, hrv], hc1⟩
      have halign : renderJ (.arr (.cons v t)) ++ rest
          = '[' :: (renderJList (.cons v t) ++ ']' :: rest) := by
        simp [renderJ]
      rw [halign, hlist, parseVal_lbrack_cons g c rr hcne, ← hlist,
        parse_renderJList (.cons v t) (by simpa [JVal.wf] using hwf)
          (by simp) g hsz rest hrest]
  | .obj .nil, _, fuel, hfuel, rest, _ => by
      obtain ⟨g, rfl⟩ : ∃ g, fuel = g + 1 :=
        ⟨fuel - 1, by simp [jsize] at hfuel; omega⟩
      rfl
  | .obj (.cons k v t), hwf, fuel, hfuel, rest, hrest => by
      obtain ⟨g, rfl⟩ : ∃ g, fuel = g + 1 :=
        ⟨fuel - 1, by simp [jsize] at hfuel; omega⟩
      have hsz : jsizeF (.cons k v t) ≤ g := by
        simp [jsize] at hfuel
        omega
      obtain ⟨c, rr, hlist, hcne⟩ :
          ∃ c rr, renderJFields (.cons k v t) ++ '\x7d' :: rest = c :: rr
            ∧ ¬ c = '\x7d' := by
        cases t with
        | nil =>
            exact ⟨'"', k.toList ++ '"' :: ':' :: renderJ v ++ '\x7d' :: rest,
              by simp [renderJFields], by decide⟩
        | cons k2 w t' =>
            exact ⟨'"', k.toList ++ '"' :: ':' :: renderJ v
                ++ ',' :: renderJFields (.cons k2 w t') ++ '\x7d' :: rest,
              by simp [renderJFields], by decide⟩
      have halign : renderJ (.obj (.cons k v t)) ++ rest
          = '\x7b' :: (renderJFields (.cons k v t) ++ '\x7d' :: rest) := by
        simp [renderJ]
      rw [halign, hlist, parseVal_lbrace_cons g c rr hcne, ← hlist,
        parse_renderJFields (.cons k v t) (by simpa [JVal.wf] using hwf)
          (by simp) g hsz rest hrest]

theorem parse_renderJList : ∀ (l : JList), JList.wf l = true → l ≠ .nil →
    ∀ (fuel : Nat), jsizeL l ≤ fuel → ∀ (rest : List Char), restStop rest →
      parseArrItems fuel (renderJList l ++ ']' :: rest) = some (l, rest)
  | .nil, _, hne, _, _, _, _ => absurd rfl hne
  | .cons v .nil, hwf, _, fuel, hfuel, rest, _ => by
      obtain ⟨g, rfl⟩ : ∃ g, fuel = g + 1 :=
        ⟨fuel - 1, by simp [jsizeL] at hfuel; omega⟩
      have hg : jsize v ≤ g := by
        simp [jsizeL] at hfuel
        omega
      have hwv : JVal.wf v = true := by
        simp only [JList.wf, Bool.and_eq_true] at hwf
        exact hwf.1
      have hv := parse_renderJ v hwv g hg (']' :: rest) (restStop_rbrack rest)
      show parseArrItems (g + 1) (renderJ v ++ ']' :: rest) = _
      simp [parseArrItems, hv]
  | .cons v (.cons w t'), hwf, _, fuel, hfuel, rest, hrest => by
      obtain ⟨g, rfl⟩ : ∃ g, fuel = g + 1 :=
        ⟨fuel - 1, by simp [jsizeL] at hfuel; omega⟩
      have hg : jsize v ≤ g := by
        simp [jsizeL] at hfuel
        omega
      have hgl : jsizeL (.cons w t') ≤ g := by
        simp [jsizeL] at hfuel ⊢
        omega
      simp only [JList.wf, Bool.and_eq_true] at hwf
      have halign : renderJList (.cons v (.cons w t')) ++ ']' :: rest
          = renderJ v ++ (',' :: (renderJList (.cons w t') ++ ']' :: rest)) := by
        simp [renderJList]
      have hv := parse_renderJ v hwf.1 g hg
        (',' :: (renderJList (.cons w t') ++ ']' :: rest)) (restStop_comma _)
      have hl := parse_renderJList (.cons w t')
        (by simp only [JList.wf, Bool.and_eq_true]; exact hwf.2) (by simp)
        g hgl rest hrest
      rw [halign]
      simp [parseArrItems, hv, hl]

theorem parse_renderJFields : ∀ (f : JFields), JFields.wf f = true → f ≠ .nil →
    ∀ (fuel : Nat), jsizeF f ≤ fuel → ∀ (rest : List Char), restStop rest →
      parseObjItems fuel (renderJFields f ++ '\x7d' :: rest) = some (f, rest)
  | .nil, _, hne, _, _, _, _ => absurd rfl hne
  | .cons k v .nil, hwf, _, fuel, hfuel, rest, _ => by
      obtain ⟨g, rfl⟩ : ∃ g, fuel = g + 1 :=
        ⟨fuel - 1, by simp [jsizeF] at hfuel; omega⟩
      have hg : jsize v ≤ g := by
        simp [jsizeF] at hfuel
        omega
      simp only [JFields.wf, Bool.and_eq_true] at hwf
      have halign : renderJFields (.cons k v .nil) ++ '\x7d' :: rest
          = '"' :: (k.toList ++ '"' :: (':' :: (renderJ v ++ '\x7d' :: rest))) := by
        simp [renderJFields]
      have hk := parseStringBody_render k hwf.1.1
        (':' :: (renderJ v ++ '\x7d' :: rest))
      have hv := parse_renderJ v hwf.1.2 g hg ('\x7d' :: rest) (restStop_rbrace rest)
      simp only [String.toList] at hk
      rw [halign]
      simp [parseObjItems, hk, hv]
  | .cons k v (.cons k2 w t'), hwf, _, fuel, hfuel, rest, hrest => by
      obtain ⟨g, rfl⟩ : ∃ g, fuel = g + 1 :=
        ⟨fuel - 1, by simp [jsizeF] at hfuel; omega⟩
      have hg : jsize v ≤ g := by
        simp [jsizeF] at hfuel
        omega
      have hgf : jsizeF (.cons k2 w t') ≤ g := by
        simp [jsizeF] at hfuel ⊢
        omega
      simp only [JFields.wf, Bool.and_eq_true] at hwf
      have halign : renderJFields (.cons k v (.cons k2 w t')) ++ '\x7d' :: rest
          = '"' :: (k.toList ++ '"' :: (':' :: (renderJ v
              ++ ',' :: (renderJFields (.cons k2 w t') ++ '\x7d' :: rest)))) := by
        simp [renderJFields]
      have hk := parseStringBody_render k hwf.1.1
        (':' :: (renderJ v ++ ',' :: (renderJFields (.cons k2 w t') ++ '\x7d' :: rest)))
      have hv := parse_renderJ v hwf.1.2 g hg
        (',' :: (renderJFields (.cons k2 w t') ++ '\x7d' :: rest)) (restStop_comma _)
      have hf := parse_renderJFields (.cons k2 w t')
        (by simp only [JFields.wf, Bool.and_eq_true]; exact hwf.2) (by simp)
        g hgf rest hrest
      simp only [String.toList] at hk
      rw [halign]
      simp [parseObjItems, hk, hv, hf]

end

/-- The parser model accepts every rendered well-formed document. -/
theorem json_loads_renderJ (v : JVal) (hwf : JVal.wf v = true) :
    json_loads (String.mk (renderJ v)) = some v := by
  unfold json_loads
  have hlist : (String.mk (renderJ v)).toList = renderJ v := rfl
  rw [hlist]
  have hsize : jsize v ≤ (renderJ v).length + 1 :=
    le_trans (jsize_le_render v) (by omega)
  have h := parse_renderJ v hwf ((renderJ v).length + 1) hsize [] (Or.inl rfl)
  rw [List.append_nil] at h
  rw [h]

/-- Claim C8: for every manifest text that is valid JSON except for
embedded `ObjectId("<hex>")` identifier tokens at value positions (and
whose strings avoid quote, backslash and the token sentinel letter, the
fragment the manifests use), the rewriting of `process_resource` turns the
text into parseable JSON and `json.loads` succeeds, yielding the hex
payload as a plain string value at each token position (`MVal.strip`). -/
theorem c8_objectid_tolerance (m : MVal) (hwf : MVal.wf m = true) :
    json_loads (objectIdSub (String.mk (renderM m))) = some m.strip := by
  unfold objectIdSub
  have hlist : (String.mk (renderM m)).toList = renderM m := rfl
  rw [hlist, objectIdSub_renderM m hwf]
  exact json_loads_renderJ m.strip (strip_wf m hwf)

/-- The spec's own example shape: a manifest whose `_id` field holds an
`ObjectId("5f1b2c...")` token. -/
def mEx : MVal :=
  .obj (.cons "_id" (.oid "5f1b2c")
    (.cons "links" (.obj (.cons "pdf" (.obj (.cons "DEU"
      (.str "http://x/a.pdf") .nil)) .nil)) .nil))

theorem c8_objectid_tolerance_witness :
    MVal.wf mEx = true ∧
    json_loads (objectIdSub (String.mk (renderM mEx)))
      = some (.obj (.cons "_id" (.str "5f1b2c")
          (.cons "links" (.obj (.cons "pdf" (.obj (.cons "DEU"
            (.str "http://x/a.pdf") .nil)) .nil)) .nil))) := by
  refine ⟨by decide, ?_⟩
  have h := c8_objectid_tolerance mEx (by decide)
  exact h.trans (by decide)

/-! ## Result sink (storage.py) -/

/-- A CKAN resource dict, with the fields this code reads.  `format` is
`None`-able (`resource.get("format") or ""`); `url` and `name` collapse
missing and empty to `""` as the source's `or`-chains do; `package_id`
may be absent, in which case `resource["package_id"]` raises `KeyError`. -/
structure Resource where
  id : String
  packageId : Option String
  format : Option String
  url : String
  name : String

/-- Python `json.dumps` on a flat string-to-string dict with the default
separators (`", "` and `": "`); keys keep insertion order. -/
def pyJsonDumps (kvs : List (String × String)) : String :=
  "\x7b" ++ String.intercalate ", "
    (kvs.map (fun kv => "\"" ++ kv.1 ++ "\": \"" ++ kv.2 ++ "\"")) ++ "\x7d"

/-- Python dict assignment `d[k] = v` on an insertion-ordered dict. -/
def dictAssign (d : List (String × String)) (k v : String) :
    List (String × String) :=
  if d.any (fun p => p.1 = k) then
    d.map (fun p => if p.1 = k then (k, v) else p)
  else d ++ [(k, v)]

/-- The dict built by iterating `extras` and assigning key/value pairs. -/
def dictOfPairs (l : List (String × String)) : List (String × String) :=
  l.foldl (fun d p => dictAssign d p.1 p.2) []

/-- Oracle for the collaborators of `store_text_in_json`: the
`resource_show` and `package_show` lookups, whether the `/tmp` text file
write succeeds (`store_text_as_txt` returns `None` on failure), the
upload POST, the `package_update` outcome, and the
`datetime.utcnow().isoformat()` reading. -/
structure StorageEnv where
  resourceShow : Except PyExc Resource
  datasetExtras : Except PyExc (List (String × String))
  writeTxtOk : Bool
  ckanUpload : CkanUploadEnv
  updateResult : Except PyExc Unit
  now : String

structure StoreTrace where
  uploadAttempted : Bool := false
  uploadResult : Option String := none
  updatedExtras : List (String × String) := []
deriving DecidableEq, Repr

/-- `str(len(text))`, rendered in decimal. -/
def pyStrLen (text : String) : String := String.mk (natToChars text.length)

/-- `store_text_in_json` (storage.py lines 14-66; mirrored as
`DocuvisionPlugin._store_text_in_json`): look the resource and dataset up,
turn the extras list into a dict, upload a `.txt` artifact when the text
is non-empty (a failed upload yields `None` and is ignored — the
`file_resources` dict is never read), write the `extracted_text_data`
metadata record, and `package_update`.  The handler logs and re-raises, so
any collaborator failure propagates unchanged. -/
def store_text_in_json (text : String) (originalName : String)
    (env : StorageEnv) : Except PyExc StoreTrace :=
  match env.resourceShow with
  | .error e => .error e
  | .ok res =>
      match res.packageId with
      | none => .error (.lib "KeyError" "package_id")
      | some _datasetId =>
          let _filename := (splitext originalName).1 ++ ".txt"
          match env.datasetExtras with
          | .error e => .error e
          | .ok extrasList =>
              let extrasDict := dictOfPairs extrasList
              let tr : StoreTrace :=
                if text ≠ "" then
                  if env.writeTxtOk then
                    { uploadAttempted := true,
                      uploadResult := upload_to_ckan env.ckanUpload }
                  else {}
                else {}
              let text_data := pyJsonDumps
                [("text_length", pyStrLen text), ("extraction_date", env.now)]
              let newExtras := dictAssign extrasDict "extracted_text_data" text_data
              match env.updateResult with
              | .error e => .error e
              | .ok _ => .ok { tr with updatedExtras := newExtras }

theorem dictAssign_find : ∀ (d : List (String × String)) (k v : String),
    ((dictAssign d k v).find? (fun p => p.1 = k)).map Prod.snd = some v
  | [], k, v => by simp [dictAssign]
  | p :: d', k, v => by
      by_cases hp : p.1 = k
      · simp [dictAssign, hp]
      · have ih := dictAssign_find d' k v
        by_cases hd : d'.any (fun q => q.1 = k)
        · simp [dictAssign, hp, hd] at ih ⊢
          exact ih
        · simp [dictAssign, hp, hd] at ih ⊢
          exact ih

/-- Claim C10: when extraction succeeds with the empty string, the storage
step uploads no text artifact but still performs the metadata update: the
written `extracted_text_data` record carries `text_length` `"0"` (a
string) and the extraction date, and the call completes without error. -/
theorem c10_empty_text_storage (originalName : String) (env : StorageEnv)
    (r : Resource) (pid : String) (extras : List (String × String))
    (hres : env.resourceShow = .ok r) (hpid : r.packageId = some pid)
    (hext : env.datasetExtras = .ok extras)
    (hupd : env.updateResult = .ok ()) :
    ∃ tr, store_text_in_json "" originalName env = .ok tr ∧
      tr.uploadAttempted = false ∧
      tr.uploadResult = none ∧
      ((tr.updatedExtras.find? (fun p => p.1 = "extracted_text_data")).map
          Prod.snd
        = some (pyJsonDumps
            [("text_length", "0"), ("extraction_date", env.now)])) := by
  refine ⟨{ uploadAttempted := false, uploadResult := none,
            updatedExtras := dictAssign (dictOfPairs extras)
              "extracted_text_data"
              (pyJsonDumps [("text_length", pyStrLen ""),
                ("extraction_date", env.now)]) }, ?_, rfl, rfl, ?_⟩
  · simp [store_text_in_json, hres, hpid, hext, hupd]
  · have hzero : pyStrLen "" = "0" := by
      unfold pyStrLen natToChars natDigitsRev
      norm_num
      decide
    have h := dictAssign_find (dictOfPairs extras) "extracted_text_data"
      (pyJsonDumps [("text_length", pyStrLen ""), ("extraction_date", env.now)])
    simpa [hzero] using h

theorem c10_empty_text_storage_witness :
    ∃ tr, store_text_in_json "" "doc.pdf"
        ⟨.ok ⟨"r1", some "d1", none, "", ""⟩, .ok [("a", "b")], true,
         ⟨.ok ⟨true, "u1"⟩⟩, .ok (), "2026-01-01T00:00:00"⟩ = .ok tr ∧
      tr.uploadAttempted = false ∧
      tr.uploadResult = none ∧
      ((tr.updatedExtras.find? (fun p => p.1 = "extracted_text_data")).map
          Prod.snd
        = some (pyJsonDumps
            [("text_length", "0"),
             ("extraction_date", "2026-01-01T00:00:00")])) :=
  c10_empty_text_storage "doc.pdf"
    ⟨.ok ⟨"r1", some "d1", none, "", ""⟩, .ok [("a", "b")], true,
     ⟨.ok ⟨true, "u1"⟩⟩, .ok (), "2026-01-01T00:00:00"⟩
    ⟨"r1", some "d1", none, "", ""⟩ "d1" [("a", "b")] rfl rfl rfl rfl

/-! ## Extraction orchestrator (processing.py `process_resource`) and the
host-facing action (plugin.py `docuvision_process_document`) -/

/-- Oracle for one `process_resource` run: the resolved file path and
filesystem check, the per-format extraction oracles, the JSON file read
(`open` + `read` + `strip`), the manifest fetch oracles and the storage
collaborators. -/
structure ProcEnv where
  filepath : String
  fileIsFile : Bool
  pdf : PdfData
  docx : Except PyExc (List String)
  doc : DocData
  xlsx : XlsxData
  image : ImageData
  jsonRead : Except PyExc String
  manifestFetch : Nat → FetchEnv
  storage : StorageEnv

structure ProcTrace where
  stored : Option StoreTrace := none
  manifest : Option JsonUploadResult := none
  skippedUnsupported : Bool := false
  jsonError : Option PyExc := none

/-- The tail of `process_resource` for extraction formats: derive the
original name from the url-or-name and store the text.  Storage errors
propagate. -/
def storeStep (r : Resource) (text : String) (env : ProcEnv) :
    Except PyExc ProcTrace :=
  let url := if r.url ≠ "" then r.url else r.name
  let originalName := basename (beforeQuery url)
  let _ := originalName
  match store_text_in_json text originalName env.storage with
  | .error e => .error e
  | .ok tr => .ok { stored := some tr }

/-- `process_resource` (processing.py lines 20-110): resolve the format,
check the file, dispatch to the extraction chain, or run the JSON-manifest
flow (whose failures are swallowed), or skip silently.  Note the source
quirk: `extract_text_docx` is declared at module level as
`(self, filepath)` but called as `extract_text_docx(filepath)`, so the
docx branch raises `TypeError` at the call itself. -/
def process_resource (r : Resource) (env : ProcEnv) : Except PyExc ProcTrace :=
  let fmt := resolve (r.format.getD "") (if r.url ≠ "" then r.url else r.name)
  if env.fileIsFile = false then
    .error (.exc ("File not found: " ++ env.filepath))
  else if fmt = "pdf" then
    match extract_text_pdf env.pdf with
    | .error e => .error e
    | .ok (text, _) => storeStep r text env
  else if fmt = "docx" then
    .error (.lib "TypeError"
      "extract_text_docx missing 1 required positional argument filepath")
  else if fmt = "doc" then
    match extract_text_doc env.doc with
    | .error e => .error e
    | .ok text => storeStep r text env
  else if fmt = "xlsx" ∨ fmt = "xls" then
    match extract_text_xlsx env.filepath env.xlsx with
    | .error e => .error e
    | .ok text => storeStep r text env
  else if fmt = "jpeg" ∨ fmt = "png" ∨ fmt = "tiff" ∨ fmt = "bmp"
      ∨ fmt = "gif" then
    match extract_text_image env.filepath env.image with
    | .error e => .error e
    | .ok text => storeStep r text env
  else if fmt = "json" then
    match env.jsonRead with
    | .error e => .ok { jsonError := some e }
    | .ok content =>
        match json_loads (objectIdSub (pyStrip content)) with
        | none => .ok { jsonError := some (.lib "json" "Expecting value") }
        | some jv =>
            match r.packageId with
            | none => .ok { jsonError := some (.lib "KeyError" "package_id") }
            | some _pid =>
                .ok { manifest := some (upload_from_json jv env.manifestFetch) }
  else .ok { skippedUnsupported := true }

structure ActionEnv where
  resourceShow : Except PyExc Resource
  proc : ProcEnv

/-- `docuvision_process_document` (plugin.py lines 122-151): validate the
parameter, look the resource up, run `_process_resource`, and translate
every failure into a raised `ValidationError` (or a re-raised
`ObjectNotFound`); on success return the success dict. -/
def docuvision_process_document (resourceId : Option String) (env : ActionEnv) :
    Except PyExc (Bool × String) :=
  if (resourceId.getD "") = "" then
    .error (.validationError "Missing resource_id in request data.")
  else
    let rid := resourceId.getD ""
    match env.resourceShow with
    | .error (.objectNotFound _) =>
        .error (.objectNotFound ("Resource with id " ++ rid ++ " not found."))
    | .error e =>
        .error (.validationError ("Error fetching resource: " ++ e.message))
    | .ok resource =>
        match process_resource resource env.proc with
        | .ok _ =>
            .ok (true, "Text extraction completed for resource " ++ rid ++ ".")
        | .error e =>
            .error (.validationError ("Error processing document: " ++ e.message))

/-- Shape of every possible action outcome: a success dict or a single
structured error carrying one message. -/
theorem action_result_shape (resourceId : Option String) (env : ActionEnv) :
    (∃ msg, docuvision_process_document resourceId env = .ok (true, msg)) ∨
    (∃ msg, docuvision_process_document resourceId env
        = .error (.validationError msg)) ∨
    (∃ msg, docuvision_process_document resourceId env
        = .error (.objectNotFound msg)) := by
  unfold docuvision_process_document
  split
  · exact Or.inr (Or.inl ⟨_, rfl⟩)
  · split
    · exact Or.inr (Or.inr ⟨_, rfl⟩)
    · exact Or.inr (Or.inl ⟨_, rfl⟩)
    · split
      · exact Or.inl ⟨_, rfl⟩
      · exact Or.inr (Or.inl ⟨_, rfl⟩)

/-- Claim C3: no outcome returned to the caller of the host-facing action
exposes a raw library exception.  Whatever the extraction chains,
filesystem, parser or collaborators raise — including raw `TypeError`s,
library errors re-raised by `extract_text_docx`/`extract_text_image`, and
the spreadsheet chain's `UnboundLocalError` — the action returns either a
success dict or a structured `ValidationError`/`ObjectNotFound` carrying a
message string. -/
theorem c3_no_raw_exception_escapes (resourceId : Option String)
    (env : ActionEnv) :
    (∃ msg, docuvision_process_document resourceId env = .ok (true, msg)) ∨
    (∃ msg, docuvision_process_document resourceId env
        = .error (.validationError msg)) ∨
    (∃ msg, docuvision_process_document resourceId env
        = .error (.objectNotFound msg)) :=
  action_result_shape resourceId env

/-- Claim C5 (amended): every invocation of the action returns either a
success dict or one structured error with a single message, and an error
is always reported when the metadata persistence step fails (storage
completes only when `package_update` succeeded) or when the input could
not be processed (any `process_resource` exception is reported as an
error).  The amendment drops the original blanket clause for the
full-text upload sub-step, which the code swallows (see the
counterexample). -/
theorem c5_error_reporting_discipline (resourceId : Option String)
    (env : ActionEnv) :
    ((∃ msg, docuvision_process_document resourceId env = .ok (true, msg)) ∨
      (∃ msg, docuvision_process_document resourceId env
          = .error (.validationError msg)) ∨
      (∃ msg, docuvision_process_document resourceId env
          = .error (.objectNotFound msg))) ∧
    (∀ text name tr, store_text_in_json text name env.proc.storage = .ok tr →
        env.proc.storage.updateResult = .ok ()) ∧
    (∀ rid r e, resourceId = some rid → ¬ rid = "" →
        env.resourceShow = .ok r →
        process_resource r env.proc = .error e →
        docuvision_process_document resourceId env
          = .error (.validationError
              ("Error processing document: " ++ e.message))) := by
  refine ⟨action_result_shape resourceId env, ?_, ?_⟩
  · intro text name tr hok
    unfold store_text_in_json at hok
    cases hupd : env.proc.storage.updateResult with
    | ok u => cases u; simp [hupd]
    | error e =>
        rw [hupd] at hok
        repeat' split at hok
        all_goals simp_all
  · intro rid r e hsome hrid hres hproc
    subst hsome
    unfold docuvision_process_document
    rw [if_neg (by simpa using hrid)]
    rw [hres]
    simp only [Option.getD_some]
    rw [hproc]

theorem c5_error_reporting_discipline_witness :
    docuvision_process_document (some "r1")
      ⟨.ok ⟨"r1", some "d1", some "pdf", "http://h/a.pdf", ""⟩,
       ⟨"/data/r1", false, ⟨.ok [], .ok []⟩, .ok [],
        ⟨.ok (), .ok "", .ok ""⟩, ⟨true, 1, .ok [], .ok (), .ok []⟩,
        ⟨true, 1, .ok ""⟩, .ok "", (fun _ => ⟨.error .timeout, ⟨.error .timeout⟩⟩),
        ⟨.ok ⟨"r1", some "d1", none, "", ""⟩, .ok [], true, ⟨.error .timeout⟩,
         .ok (), "2026-01-01T00:00:00"⟩⟩⟩
      = .error (.validationError
          ("Error processing document: " ++ "File not found: /data/r1")) := by
  have h := (c5_error_reporting_discipline (some "r1")
      ⟨.ok ⟨"r1", some "d1", some "pdf", "http://h/a.pdf", ""⟩,
       ⟨"/data/r1", false, ⟨.ok [], .ok []⟩, .ok [],
        ⟨.ok (), .ok "", .ok ""⟩, ⟨true, 1, .ok [], .ok (), .ok []⟩,
        ⟨true, 1, .ok ""⟩, .ok "", (fun _ => ⟨.error .timeout, ⟨.error .timeout⟩⟩),
        ⟨.ok ⟨"r1", some "d1", none, "", ""⟩, .ok [], true, ⟨.error .timeout⟩,
         .ok (), "2026-01-01T00:00:00"⟩⟩⟩).2.2
    "r1" ⟨"r1", some "d1", some "pdf", "http://h/a.pdf", ""⟩
    (.exc ("File not found: " ++ "/data/r1")) rfl (by decide) rfl (by rfl)
  exact h

/-- A resource and environment on which the full-text upload sub-step
fails (the POST times out, so `upload_to_ckan` returns `None`) while
everything else succeeds. -/
def cRes : Resource := ⟨"r1", some "d1", some "pdf", "http://h/a.pdf", ""⟩

def cProc : ProcEnv :=
  ⟨"/data/r1", true, ⟨.ok [some "hello world"], .ok []⟩, .ok [],
   ⟨.ok (), .ok "", .ok ""⟩, ⟨true, 1, .ok [], .ok (), .ok []⟩,
   ⟨true, 1, .ok ""⟩, .ok "", (fun _ => ⟨.error .timeout, ⟨.error .timeout⟩⟩),
   ⟨.ok cRes, .ok [], true, ⟨.error .timeout⟩, .ok (), "2026-01-01T00:00:00"⟩⟩

/-- Claim C5 counterexample for the original wording: the upload of the
extracted-text artifact fails (`upload_to_ckan` returns `None`), yet the
action still reports success — a partial result surfaced as success. -/
theorem c5_success_despite_upload_failure :
    upload_to_ckan ⟨.error .timeout⟩ = none ∧
    (process_resource cRes cProc).map
        (fun tr => tr.stored.map (fun st => (st.uploadAttempted, st.uploadResult)))
      = .ok (some (true, none)) ∧
    docuvision_process_document (some "r1") ⟨.ok cRes, cProc⟩
      = .ok (true, "Text extraction completed for resource r1.") := by
  refine ⟨rfl, by rfl, by rfl⟩

end Docuvision
